import Mathlib

/-! # The export command

A shallow embedding of `command/export.go` (`runExport`, `isExcluded`, `isIncluded`) together
with the facts established about it.

Modelling conventions.

* Type names, object names and paths are Lean strings.  Go compares strings byte by byte; on
  UTF-8 text this is the order of the code points, which is what `strLe` implements.
* The process-wide flag variables (`showWarnings`, `includeManagedPackages`,
  `excludeMetadataNames`, `includeMetadataNames`) are the fields of `Flags`.
* The remote service (`force.ListSobjects`, `force.GetAllFolders`, `force.GetMetadataInFolders`,
  `force.Metadata.Retrieve`) and the local resolvers (`filepath.Abs`, `config.GetSourceDir`) are
  the fields of `Force` and `Resolver`; every remote call is recorded, in order, in a list of
  `Call`s.
* A Go map is ranged over in an unspecified order; a map is given as the list of its entries in
  the order in which the loop visits them.
* `ErrorAndExit` ends the run: it is the outcome `Outcome.fatal` with the message passed.
* `ActiveForce()` is taken to yield a session (its error is dropped by the source), and every
  object of the listing to carry a string `name`, which is all the source reads of it.
* The file system is an explicit finite map from cleaned absolute paths to nodes.  Both resolvers
  yield absolute paths; a root string is read from the file-system root.  `os.MkdirAll` and
  `ioutil.WriteFile` follow their documented contracts and fail only for structural reasons
  (a regular file where a directory is needed, a directory where the file is to be written).
-/

namespace Export

/-! ## Strings and the `sort` package -/

/-- Lexicographic `a ≤ b` on character sequences, comparing code points. -/
def lexLe : List Char → List Char → Bool
  | [], _ => true
  | _ :: _, [] => false
  | a :: as, b :: bs =>
    if a.toNat < b.toNat then true
    else if b.toNat < a.toNat then false
    else lexLe as bs

/-- Go string comparison `a <= b`. -/
def strLe (a b : String) : Bool := lexLe a.data b.data

/-- Go `sort.Strings`: the increasing rearrangement of the list. -/
def sortStrings (l : List String) : List String :=
  l.insertionSort (fun a b => strLe a b = true)

/-- The loop of Go `sort.Search`: `for i < j { h := (i+j)/2; if !f(h) { i = h+1 } else { j = h } }`.
The first argument bounds the number of iterations; `j - i` iterations always suffice because
every iteration shrinks `j - i`. -/
def searchLoop (f : Nat → Bool) : Nat → Nat → Nat → Nat
  | 0, i, _ => i
  | fuel + 1, i, j =>
    if i < j then
      let h := (i + j) / 2
      if !f h then searchLoop f fuel (h + 1) j else searchLoop f fuel i h
    else i

/-- Go `sort.Search(n, f)`. -/
def Search (n : Nat) (f : Nat → Bool) : Nat := searchLoop f n 0 n

/-- Go `sort.SearchStrings(a, x)`: `Search(len(a), func(i) { return a[i] >= x })`. -/
def SearchStrings (a : List String) (x : String) : Nat :=
  Search a.length (fun i => strLe x (a.getD i ""))

/-- Go `strings.Count(s, substr)` for a non-empty `substr`, on character sequences: the number of
non-overlapping occurrences, found from left to right.  The first argument is the number of
characters still covered by the occurrence found last. -/
def countFrom (substr : List Char) : Nat → List Char → Nat
  | _, [] => 0
  | skip + 1, _ :: cs => countFrom substr skip cs
  | 0, c :: cs =>
    if substr.isPrefixOf (c :: cs) then 1 + countFrom substr (substr.length - 1) cs
    else countFrom substr 0 cs

/-- Go `strings.Count(s, substr)` for a non-empty `substr`. -/
def Count (s substr : String) : Nat := countFrom substr.data 0 s.data

/-- Go `strings.HasSuffix(s, suffix)`. -/
def HasSuffix (s suffix : String) : Bool := suffix.data.isSuffixOf s.data

/-! ## The filter set -/

/-- The flag variables of the command. -/
structure Flags where
  showWarnings : Bool
  includeManagedPackages : Bool
  excludeMetadataNames : List String
  includeMetadataNames : List String

/-- Source `isExcluded`, reading the exclude list it is given. -/
def isExcluded (excludeMetadataNames : List String) (name : String) : Bool :=
  let index := SearchStrings excludeMetadataNames name
  decide (index < excludeMetadataNames.length) && (excludeMetadataNames.getD index "" == name)

/-- Source `isIncluded`, reading the include list it is given. -/
def isIncluded (includeMetadataNames : List String) (name : String) : Bool :=
  let index := SearchStrings includeMetadataNames name
  decide (index < includeMetadataNames.length) && (includeMetadataNames.getD index "" == name)

/-! ## The query document -/

/-- One request of the query: type names and member names. -/
structure ForceMetadataQueryElement where
  Name : List String
  Members : List String
deriving DecidableEq

/-- The query document. -/
abbrev ForceMetadataQuery := List ForceMetadataQueryElement

/-- All type names of a query document, in order. -/
def typeNames : ForceMetadataQuery → List String
  | [] => []
  | e :: rest => e.Name ++ typeNames rest

/-- The remote service.  An object of the listing is given by its `name` entry. -/
structure Force where
  ListSobjects : Except String (List String)
  GetAllFolders : Except String (List (String × List String))
  GetMetadataInFolders : String → List String → Except String (List String)
  Retrieve : ForceMetadataQuery → Except String (List (String × List Nat) × List String)

/-- The two ways of resolving the export root. -/
structure Resolver where
  Abs : String → Except String String
  GetSourceDir : Except String String

/-- A call to the remote service. -/
inductive Call where
  | ListSobjects
  | GetAllFolders
  | GetMetadataInFolders (foldersType : String) (foldersName : List String)
  | Retrieve (query : ForceMetadataQuery)
deriving DecidableEq

/-- The static catalog, lines 113 to 460. -/
def metadataNames : List String := [
  "AccessControlPolicy", "AccountForecastSettings", "AccountInsightsSettings",
  "AccountIntelligenceSettings", "AccountRelationshipShareRule", "AccountSettings",
  "AcctMgrTargetSettings", "ActionLinkGroupTemplate", "ActionPlanTemplate", "ActionsSettings",
  "ActivitiesSettings", "AddressSettings", "AIReplyRecommendationsSettings", "AnalyticSnapshot",
  "AnalyticsSettings", "AnimationRule", "ApexClass", "ApexComponent", "ApexEmailNotifications",
  "ApexPage", "ApexSettings", "ApexTestSuite", "ApexTrigger", "AppAnalyticsSettings",
  "AppExperienceSettings", "ApplicationRecordTypeConfig", "AppMenu",
  "AppointmentSchedulingPolicy", "ApprovalProcess", "ArchiveSettings", "AssignmentRules",
  "AssistantContextItem", "AssistantDefinition", "AssistantSkillQuickAction",
  "AssistantSkillSobjectAction", "AssistantVersion", "Audience", "AuraDefinitionBundle",
  "AuthProvider", "AutomatedContactsSettings", "AutoResponseRules", "BatchCalcJobDefinition",
  "BatchProcessJobDefinition", "BlacklistedConsumer", "BlockchainSettings", "Bot", "BotSettings",
  "BotVersion", "BrandingSet", "BusinessHoursSettings", "BusinessProcess",
  "BusinessProcessGroup", "CallCenter", "CallCoachingMediaProvider", "CampaignInfluenceModel",
  "CampaignSettings", "CanvasMetadata", "CareProviderSearchConfig", "CareRequestConfiguration",
  "CareSystemFieldMapping", "CaseClassificationSettings", "CaseSettings", "CaseSubjectParticle",
  "Certificate", "ChannelLayout", "ChannelObjectLinkingRule", "ChatterAnswersSettings",
  "ChatterEmailsMDSettings", "ChatterExtension", "ChatterSettings", "CleanDataService",
  "CMSConnectSource", "CommandAction", "CommunitiesSettings", "Community",
  "CommunityTemplateDefinition", "CommunityThemeDefinition", "CompactLayout", "CompanySettings",
  "ConnectedApp", "ConnectedAppSettings", "ContentAsset", "ContentSettings", "ContractSettings",
  "ConversationalIntelligenceSettings", "CorsWhitelistOrigin", "CspTrustedSite",
  "CurrencySettings", "CustomApplication", "CustomApplicationComponent",
  "CustomerDataPlatformSettings", "CustomFeedFilter", "CustomField", "CustomHelpMenuSection",
  "CustomLabels", "CustomMetadata", "CustomNotificationType", "CustomObjectTranslation",
  "CustomPageWebLink", "CustomPermission", "CustomSite", "CustomTab", "DashboardFolder",
  "DataCategoryGroup", "DataDotComSettings", "DataSourceObject", "DecisionTable",
  "DecisionTableDatasetLink", "DelegateGroup", "DeploymentSettings", "DevHubSettings",
  "DiscoverySettings", "DocumentChecklistSettings", "DocumentFolder", "DocumentType",
  "DuplicateRule", "DynamicTrigger", "EACSettings", "EclairGeoData", "EinsteinAssistantSettings",
  "EmailAdministrationSettings", "EmailFolder", "EmailIntegrationSettings",
  "EmailServicesFunction", "EmailTemplate", "EmailTemplateSettings", "EmbeddedServiceBranding",
  "EmbeddedServiceConfig", "EmbeddedServiceFlowConfig", "EmbeddedServiceLiveAgent",
  "EnhancedNotesSettings", "EntitlementProcess", "EntitlementSettings", "EntitlementTemplate",
  "EntityImplements", "EscalationRules", "EssentialsSettings", "EventSettings",
  "ExperienceBundle", "ExperienceBundleSettings", "ExternalDataSource",
  "ExternalServiceRegistration", "ExternalServicesSettings", "FeatureParameterBoolean",
  "FeatureParameterDate", "FeatureParameterInteger", "FieldServiceMobileExtension",
  "FieldServiceSettings", "FieldSet", "FieldSrcTrgtRelationship", "FilesConnectSettings",
  "FileUploadAndDownloadSecuritySettings", "FlexiPage", "Flow", "FlowCategory", "FlowDefinition",
  "FlowSettings", "ForecastingSettings", "FormulaSettings", "FunctionReference",
  "GatewayProviderPaymentMethodType", "GlobalValueSet", "GlobalValueSetTranslation",
  "GoogleAppsSettings", "Group", "HighVelocitySalesSettings", "HomePageComponent",
  "HomePageLayout", "Icon", "IdeasSettings", "IframeWhiteListUrlSettings", "InboundCertificate",
  "InboundNetworkConnection", "Index", "IndustriesManufacturingSettings", "IndustriesSettings",
  "InstalledPackage", "InventorySettings", "InvocableActionSettings", "IoTSettings",
  "IsvHammerSettings", "KeywordList", "KnowledgeSettings", "LanguageSettings", "Layout",
  "LeadConfigSettings", "LeadConvertSettings", "Letterhead", "LightningBolt",
  "LightningComponentBundle", "LightningExperienceSettings", "LightningExperienceTheme",
  "LightningMessageChannel", "LightningOnboardingConfig", "ListView", "LiveAgentSettings",
  "LiveChatAgentConfig", "LiveChatButton", "LiveChatDeployment", "LiveChatSensitiveDataRule",
  "LiveMessageSettings", "MacroSettings", "ManagedContentType", "ManagedTopics",
  "MapsAndLocationSettings", "MatchingRules", "MilestoneType", "MlDomain",
  "MobileApplicationDetail", "MobileSettings", "ModerationRule", "MutingPermissionSet",
  "MyDomainDiscoverableLogin", "MyDomainSettings", "NamedCredential", "NameSettings",
  "NavigationMenu", "Network", "NetworkBranding", "NotificationsSettings",
  "NotificationTypeConfig", "OauthCustomScope", "ObjectLinkingSettings", "ObjectSourceTargetMap",
  "OmniChannelSettings", "OpportunityInsightsSettings", "OpportunityScoreSettings",
  "OpportunitySettings", "OrderManagementSettings", "OrderSettings", "OrgSettings",
  "OutboundNetworkConnection", "PardotEinsteinSettings", "PardotSettings", "ParticipantRole",
  "PartyDataModelSettings", "PathAssistant", "PathAssistantSettings", "PaymentGatewayProvider",
  "PermissionSet", "PermissionSetGroup", "PicklistSettings", "PlatformCachePartition",
  "PlatformEventChannel", "PlatformEventChannelMember", "PortalsSettings", "PostTemplate",
  "PredictionBuilderSettings", "PresenceDeclineReason", "PresenceUserConfig", "PrivacySettings",
  "ProductSettings", "Profile", "ProfilePasswordPolicy", "ProfileSessionSetting", "Prompt",
  "Queue", "QueueRoutingConfig", "QuickAction", "QuickTextSettings", "QuoteSettings",
  "RecommendationBuilderSettings", "RecommendationStrategy", "RecordActionDeployment",
  "RecordPageSettings", "RecordType", "RedirectWhitelistUrl", "RemoteSiteSetting",
  "ReportFolder", "ReportType", "RestrictionRule", "RetailExecutionSettings", "Role",
  "SalesAgreementSettings", "SalesWorkQueueSettings", "SamlSsoConfig", "SchemaSettings",
  "SearchSettings", "SecuritySettings", "ServiceChannel", "ServiceCloudVoiceSettings",
  "ServicePresenceStatus", "ServiceSetupAssistantSettings", "SharingCriteriaRule",
  "SharingGuestRule", "SharingOwnerRule", "SharingReason", "SharingRules", "SharingSet",
  "SharingSettings", "SharingTerritoryRule", "SiteDotCom", "SiteSettings", "Skill",
  "SocialCustomerServiceSettings", "SocialProfileSettings", "SourceTrackingSettings",
  "StandardValue", "StandardValueSet", "StandardValueSetTranslation", "StaticResource",
  "SurveySettings", "SynonymDictionary", "SystemNotificationSettings", "Territory", "Territory2",
  "Territory2Model", "Territory2Rule", "Territory2Settings", "Territory2Type",
  "TimeSheetTemplate", "TrailheadSettings", "TransactionSecurityPolicy", "Translations",
  "TrialOrgSettings", "UIObjectRelationConfig", "UiPlugin", "UserAuthCertificate",
  "UserCriteria", "UserEngagementSettings", "UserInterfaceSettings", "UserManagementSettings",
  "UserProvisioningConfig", "ValidationRule", "WaveApplication", "WaveDashboard", "WaveDataflow",
  "WaveDataset", "WaveLens", "WaveRecipe", "WaveTemplateBundle", "WaveXmd", "WebLink",
  "WebStoreTemplate", "WebToXSettings", "WorkDotComSettings", "Workflow", "WorkflowAlert",
  "WorkflowFieldUpdate", "WorkflowFlowAction", "WorkflowKnowledgePublish",
  "WorkflowOutboundMessage", "WorkflowRule", "WorkflowSend", "WorkflowTask", "WorkSkillRouting"]

/-! ## Assembling the query (lines 80 to 494) -/

/-- The object loop, lines 94 to 107: the names of the listing that are kept are appended to
`stdObjects`. -/
def stdObjectsLoop (includeManagedPackages : Bool) : List String → List String → List String
  | [], stdObjects => stdObjects
  | name :: sobjects, stdObjects =>
    let includeName : Bool :=
      if Count name "__" > 1 then (if !includeManagedPackages then false else true) else true
    if includeName && !HasSuffix name "Tag" && !HasSuffix name "History" &&
        !HasSuffix name "Share" && !HasSuffix name "ChangeEvent" &&
        !HasSuffix name "Feed" then
      stdObjectsLoop includeManagedPackages sobjects (stdObjects ++ [name])
    else
      stdObjectsLoop includeManagedPackages sobjects stdObjects

/-- Lines 92 to 108: the member list of the `CustomObject` element. -/
def stdObjects (includeManagedPackages : Bool) (sobjects : List String) : List String :=
  stdObjectsLoop includeManagedPackages sobjects ["*"] ++ ["Activity"]

/-- Lines 91 to 111: the `CustomObject` element is appended when `CustomObject` is not excluded
or is included.  Both filter lists are the sorted ones. -/
def customObjectStep (includeManagedPackages : Bool) (excludeMetadataNames includeMetadataNames :
    List String) (sobjects : List String) (query : ForceMetadataQuery) : ForceMetadataQuery :=
  let customObject := "CustomObject"
  if !isExcluded excludeMetadataNames customObject ||
      isIncluded includeMetadataNames customObject then
    query ++ [⟨[customObject], stdObjects includeManagedPackages sobjects⟩]
  else query

/-- Lines 467 to 471: one wildcard element for every name that is not excluded. -/
def namesLoop (excludeMetadataNames : List String) : List String → ForceMetadataQuery →
    ForceMetadataQuery
  | [], query => query
  | name :: rest, query =>
    if !isExcluded excludeMetadataNames name then
      namesLoop excludeMetadataNames rest (query ++ [⟨[name], ["*"]⟩])
    else namesLoop excludeMetadataNames rest query

/-- Lines 481 to 483: folder type `Email` holds metadata of type `EmailTemplate`. -/
def metadataTypeOf (foldersType : String) : String :=
  if foldersType = "Email" then "EmailTemplate" else foldersType

/-- Lines 480 to 493: the loop over the folder listing.  It carries the calls made so far and
the query, and stops at the first member listing that fails. -/
def foldersLoop (force : Force) (excludeMetadataNames : List String) :
    List (String × List String) → List Call → ForceMetadataQuery →
    List Call × Except String ForceMetadataQuery
  | [], calls, query => (calls, .ok query)
  | (foldersType, foldersName) :: folders, calls, query =>
    let foldersType := metadataTypeOf foldersType
    let calls := calls ++ [Call.GetMetadataInFolders foldersType foldersName]
    match force.GetMetadataInFolders foldersType foldersName with
    | .error err => (calls, .error ("Could not get metadata in folders: " ++ err))
    | .ok members =>
      if !isExcluded excludeMetadataNames foldersType then
        foldersLoop force excludeMetadataNames folders calls
          (query ++ [⟨[foldersType], members⟩])
      else foldersLoop force excludeMetadataNames folders calls query

/-- Lines 80 to 494 of `runExport`: the remote calls made and either the message of the fatal
error or the assembled query document. -/
def assemble (force : Force) (flags : Flags) : List Call × Except String ForceMetadataQuery :=
  match force.ListSobjects with
  | .error err => ([Call.ListSobjects], .error err)
  | .ok sobjects =>
    let query : ForceMetadataQuery := []
    let excludeMetadataNames := sortStrings flags.excludeMetadataNames
    let includeMetadataNames := sortStrings flags.includeMetadataNames
    let query := customObjectStep flags.includeManagedPackages excludeMetadataNames
      includeMetadataNames sobjects query
    let names :=
      if includeMetadataNames.length > 0 then sortStrings includeMetadataNames
      else metadataNames
    let query := namesLoop excludeMetadataNames names query
    if includeMetadataNames.length = 0 then
      match force.GetAllFolders with
      | .error err =>
        ([Call.ListSobjects, Call.GetAllFolders], .error ("Could not get folders: " ++ err))
      | .ok folders =>
        foldersLoop force excludeMetadataNames folders [Call.ListSobjects, Call.GetAllFolders]
          query
    else ([Call.ListSobjects], .ok query)

/-! ## The file system and the materializer (lines 514 to 523) -/

/-- A node of the file system: a directory or a regular file with its bytes. -/
inductive Node where
  | dir
  | file (data : List Nat)
deriving DecidableEq

/-- An absolute, cleaned path: its components from the root. -/
abbrev Path := List String

/-- The file system: the nodes that exist, by path.  The root directory always exists. -/
abbrev FS := List (Path × Node)

/-- The first node recorded for a path. -/
def find (p : Path) : FS → Option Node
  | [] => none
  | (q, v) :: rest => if q = p then some v else find p rest

/-- The node at a path, if any. -/
def stat (fs : FS) (p : Path) : Option Node :=
  if p = [] then some Node.dir else find p fs

/-- Put a node at a path: replace the node that is there, or add one. -/
def put (p : Path) (v : Node) : FS → FS
  | [] => [(p, v)]
  | (q, w) :: rest => if q = p then (p, v) :: rest else (q, w) :: put p v rest

/-- Go `strings.Split(s, "/")` on character sequences. -/
def splitSlash : List Char → List (List Char)
  | [] => [[]]
  | c :: cs =>
    match splitSlash cs with
    | [] => [[c]]
    | seg :: segs => if c = '/' then [] :: seg :: segs else (c :: seg) :: segs

/-- The components of a path string. -/
def components (s : String) : List String := (splitSlash s.data).map String.mk

/-- Go `filepath.Clean` on a rooted path, component by component: empty components and `.` are
dropped, `..` removes the component before it (and is dropped at the root). -/
def cleanFrom : Path → List String → Path
  | acc, [] => acc
  | acc, c :: rest =>
    if c = "" ∨ c = "." then cleanFrom acc rest
    else if c = ".." then cleanFrom acc.dropLast rest
    else cleanFrom (acc ++ [c]) rest

/-- Go `filepath.Join(root, name)` for an absolute `root`: the cleaned path `root/name`. -/
def Join (root name : String) : Path := cleanFrom [] (components root ++ components name)

/-- Go `filepath.Dir` of a cleaned absolute path. -/
def Dir (p : Path) : Path := p.dropLast

/-- The directories below `pre` along `rest` are created where missing, from the top; a regular
file on the way is an error. -/
def mkdirFrom : Path → List String → FS → Except String FS
  | _, [], fs => .ok fs
  | pre, c :: rest, fs =>
    match stat fs (pre ++ [c]) with
    | some (Node.file _) => .error "not a directory"
    | some Node.dir => mkdirFrom (pre ++ [c]) rest fs
    | none => mkdirFrom (pre ++ [c]) rest (put (pre ++ [c]) Node.dir fs)

/-- Go `os.MkdirAll(dir, 0755)`: creates `dir` and the missing parents; directories that exist
are left alone. -/
def MkdirAll (dir : Path) (fs : FS) : Except String FS := mkdirFrom [] dir fs

/-- Go `ioutil.WriteFile(file, data, 0644)`: creates or truncates the file in an existing
directory. -/
def WriteFile (file : Path) (data : List Nat) (fs : FS) : Except String FS :=
  match stat fs file with
  | some Node.dir => .error "is a directory"
  | _ =>
    match stat fs (Dir file) with
    | some Node.dir => .ok (put file (Node.file data) fs)
    | _ => .error "no such file or directory"

/-- Lines 514 to 523: the loop over the retrieved files.  It returns the file system reached and
the message of the error that stopped it, if any. -/
def materialize (root : String) : List (String × List Nat) → FS → FS × Option String
  | [], fs => (fs, none)
  | (name, data) :: files, fs =>
    let file := Join root name
    let dir := Dir file
    match MkdirAll dir fs with
    | .error err => (fs, some err)
    | .ok fs1 =>
      match WriteFile (Join root name) data fs1 with
      | .error err => (fs1, some err)
      | .ok fs2 => materialize root files fs2

/-! ## The command -/

/-- How a run ends. -/
inductive Outcome where
  | fatal (msg : String)
  | exported (root : String)
deriving DecidableEq

/-- What a run leaves behind: the remote calls in order, the warnings printed, the file system
and the outcome. -/
structure Run where
  calls : List Call
  warnings : List String
  fs : FS
  outcome : Outcome
deriving DecidableEq

/-- Source `runExport`. -/
def runExport (resolver : Resolver) (force : Force) (flags : Flags) (args : List String)
    (fs : FS) : Run :=
  let fromArgs : Except String String :=
    if args.length = 1 then resolver.Abs (args.getD 0 "") else .ok ""
  match fromArgs with
  | .error err => ⟨[], [], fs, Outcome.fatal err⟩
  | .ok root =>
    match assemble force flags with
    | (calls, .error msg) => ⟨calls, [], fs, Outcome.fatal msg⟩
    | (calls, .ok query) =>
      let resolved : Except String String :=
        if root = "" then resolver.GetSourceDir else .ok root
      match resolved with
      | .error err => ⟨calls, [], fs, Outcome.fatal err⟩
      | .ok root =>
        match force.Retrieve query with
        | .error err => ⟨calls ++ [Call.Retrieve query], [], fs, Outcome.fatal err⟩
        | .ok (files, problems) =>
          let warnings := if flags.showWarnings then problems else []
          match materialize root files fs with
          | (fs1, some err) => ⟨calls ++ [Call.Retrieve query], warnings, fs1, Outcome.fatal err⟩
          | (fs1, none) => ⟨calls ++ [Call.Retrieve query], warnings, fs1, Outcome.exported root⟩


/-! ## The assembled document in closed form -/

/-- The wildcard element of a type name. -/
def wildcard (name : String) : ForceMetadataQueryElement := ⟨[name], ["*"]⟩

/-- An object name survives when it ends in none of `Tag`, `History`, `Share`, `ChangeEvent`,
`Feed` and either holds `__` at most once (occurrences counted as `strings.Count` counts them,
without overlap) or managed packages are included. -/
def survives (includeManagedPackages : Bool) (name : String) : Bool :=
  decide (¬ (HasSuffix name "Tag" = true ∨ HasSuffix name "History" = true ∨
      HasSuffix name "Share" = true ∨ HasSuffix name "ChangeEvent" = true ∨
      HasSuffix name "Feed" = true) ∧
    (Count name "__" ≤ 1 ∨ includeManagedPackages = true))

/-- The `CustomObject` element for an object listing. -/
def customObjectElement (includeManagedPackages : Bool) (sobjects : List String) :
    ForceMetadataQueryElement :=
  ⟨["CustomObject"], "*" :: sobjects.filter (survives includeManagedPackages) ++ ["Activity"]⟩

/-- The object part of the document: the `CustomObject` element, present when `CustomObject` is
not in the exclude filter or is in the include filter. -/
def objectPart (flags : Flags) (sobjects : List String) : ForceMetadataQuery :=
  if "CustomObject" ∉ flags.excludeMetadataNames ∨ "CustomObject" ∈ flags.includeMetadataNames
  then [customObjectElement flags.includeManagedPackages sobjects] else []

/-- The catalog part: a wildcard element for every listed name outside the exclude filter. -/
def catalogPart (exclude names : List String) : ForceMetadataQuery :=
  (names.filter (fun n => decide (n ∉ exclude))).map wildcard

/-- The element a folder-listing entry contributes, if any. -/
def folderElement (force : Force) (exclude : List String) (p : String × List String) :
    Option ForceMetadataQueryElement :=
  match force.GetMetadataInFolders (metadataTypeOf p.1) p.2 with
  | .ok members =>
    if metadataTypeOf p.1 ∈ exclude then none else some ⟨[metadataTypeOf p.1], members⟩
  | .error _ => none

/-- The folder part of the document. -/
def folderPart (force : Force) (exclude : List String) (folders : List (String × List String)) :
    ForceMetadataQuery :=
  folders.filterMap (folderElement force exclude)

/-- The member-listing call made for a folder-listing entry. -/
def folderCall (p : String × List String) : Call :=
  Call.GetMetadataInFolders (metadataTypeOf p.1) p.2

/-! ## Keys for the static catalog -/

/-- A key that follows the order in which the catalog is written: the lower-cased name, read as
a number of 48 digits in base 256. -/
def catalogKey (s : String) : Nat :=
  (s.data.map (fun c => c.toLower.toNat)).foldl (fun acc c => acc * 256 + c) 0 *
    256 ^ (48 - s.length)

/-- Each number is smaller than the next. -/
def increasing : List Nat → Bool
  | [] => true
  | [_] => true
  | x :: y :: rest => decide (x < y) && increasing (y :: rest)


/-! ## Directory chains -/

/-- Every directory below `pre` along `rest` exists. -/
def allDirs (fs : FS) : Path → List String → Prop
  | _, [] => True
  | pre, c :: rest => stat fs (pre ++ [c]) = some Node.dir ∧ allDirs fs (pre ++ [c]) rest


/-! ## Sample collaborators -/

/-- A service that lists the objects `Account` and `Foo__bar__baz` and the folder types `Email`
and `Report`, and whose member lister answers with the folder names it is given. -/
def sampleForce : Force where
  ListSobjects := .ok ["Account", "Foo__bar__baz"]
  GetAllFolders := .ok [("Email", ["Inbox"]), ("Report", ["Sales"])]
  GetMetadataInFolders := fun _ foldersName => .ok foldersName
  Retrieve := fun _ => .ok ([("classes/A.cls", [1, 2])], [])

/-- A service with a single folder type, `Report`. -/
def reportForce : Force where
  ListSobjects := .ok ["Account"]
  GetAllFolders := .ok [("Report", ["Sales"])]
  GetMetadataInFolders := fun _ foldersName => .ok foldersName
  Retrieve := fun _ => .ok ([], [])

/-- A service whose object listing fails. -/
def failingObjects : Force where
  ListSobjects := .error "boom"
  GetAllFolders := .ok []
  GetMetadataInFolders := fun _ foldersName => .ok foldersName
  Retrieve := fun _ => .ok ([], [])

/-- A service whose folder listing fails. -/
def failingFolders : Force where
  ListSobjects := .ok []
  GetAllFolders := .error "boom"
  GetMetadataInFolders := fun _ foldersName => .ok foldersName
  Retrieve := fun _ => .ok ([], [])

/-- A service whose folder-member listing fails. -/
def failingMembers : Force where
  ListSobjects := .ok []
  GetAllFolders := .ok [("Report", ["Sales"])]
  GetMetadataInFolders := fun _ _ => .error "boom"
  Retrieve := fun _ => .ok ([], [])

/-- A resolver that makes a path absolute under `/work` and has a stored source directory. -/
def sampleResolver : Resolver where
  Abs := fun p => .ok ("/work/" ++ p)
  GetSourceDir := .ok "/work/src"

/-- A resolver without a stored source directory and unable to make a path absolute. -/
def failingResolver : Resolver where
  Abs := fun _ => .error "no working directory"
  GetSourceDir := .error "no source directory"

/-- No filter, no managed packages, no warnings. -/
def noFlags : Flags := ⟨false, false, [], []⟩


/-! # Theorems -/

/-! ## The string order -/

theorem lexLe_refl : ∀ a : List Char, lexLe a a = true
  | [] => rfl
  | c :: cs => by simp [lexLe, lexLe_refl cs]

theorem lexLe_total : ∀ a b : List Char, lexLe a b = true ∨ lexLe b a = true
  | [], _ => Or.inl (by simp [lexLe])
  | _ :: _, [] => Or.inr (by simp [lexLe])
  | a :: as, b :: bs => by
    rcases Nat.lt_trichotomy a.toNat b.toNat with h | h | h
    · left; simp [lexLe, h]
    · rcases lexLe_total as bs with h1 | h1
      · left; simp [lexLe, h, h1]
      · right; simp [lexLe, h, h1]
    · right; simp [lexLe, h]

theorem lexLe_antisymm : ∀ a b : List Char, lexLe a b = true → lexLe b a = true → a = b
  | [], [], _, _ => rfl
  | [], _ :: _, _, h => by simp [lexLe] at h
  | _ :: _, [], h, _ => by simp [lexLe] at h
  | a :: as, b :: bs, h1, h2 => by
    rcases Nat.lt_trichotomy a.toNat b.toNat with h | h | h
    · have : ¬ b.toNat < a.toNat := by omega
      simp [lexLe, h, this] at h2
    · have hab : a = b := by rw [← Char.ofNat_toNat a, ← Char.ofNat_toNat b, h]
      subst hab
      simp [lexLe] at h1 h2
      rw [lexLe_antisymm as bs h1 h2]
    · have : ¬ a.toNat < b.toNat := by omega
      simp [lexLe, h, this] at h1

theorem lexLe_trans : ∀ a b c : List Char, lexLe a b = true → lexLe b c = true →
    lexLe a c = true
  | [], _, _, _, _ => by simp [lexLe]
  | _ :: _, [], _, h, _ => by simp [lexLe] at h
  | _ :: _, _ :: _, [], _, h => by simp [lexLe] at h
  | a :: as, b :: bs, c :: cs, h1, h2 => by
    simp only [lexLe] at h1 h2 ⊢
    by_cases hab : a.toNat < b.toNat
    · by_cases hbc : b.toNat < c.toNat
      · have : a.toNat < c.toNat := by omega
        simp [this]
      · by_cases hcb : c.toNat < b.toNat
        · simp [hbc, hcb] at h2
        · have : a.toNat < c.toNat := by omega
          simp [this]
    · by_cases hba : b.toNat < a.toNat
      · simp [hab, hba] at h1
      · simp only [hab, hba, if_false] at h1
        by_cases hbc : b.toNat < c.toNat
        · have : a.toNat < c.toNat := by omega
          simp [this]
        · by_cases hcb : c.toNat < b.toNat
          · simp [hbc, hcb] at h2
          · simp only [hbc, hcb, if_false] at h2
            have e1 : ¬ a.toNat < c.toNat := by omega
            have e2 : ¬ c.toNat < a.toNat := by omega
            simp only [e1, e2, if_false]
            exact lexLe_trans as bs cs h1 h2

theorem strLe_refl (a : String) : strLe a a = true := lexLe_refl a.data

theorem strLe_total (a b : String) : strLe a b = true ∨ strLe b a = true :=
  lexLe_total a.data b.data

theorem strLe_trans {a b c : String} (h1 : strLe a b = true) (h2 : strLe b c = true) :
    strLe a c = true := lexLe_trans _ _ _ h1 h2

theorem strLe_antisymm {a b : String} (h1 : strLe a b = true) (h2 : strLe b a = true) :
    a = b := String.ext (lexLe_antisymm _ _ h1 h2)

theorem sortStrings_sorted (l : List String) :
    (sortStrings l).Sorted (fun a b => strLe a b = true) :=
  @List.sorted_insertionSort String (fun a b => strLe a b = true) _ ⟨strLe_total⟩
    ⟨fun _ _ _ h1 h2 => strLe_trans h1 h2⟩ l

theorem sortStrings_perm (l : List String) : (sortStrings l).Perm l :=
  List.perm_insertionSort _ l

theorem mem_sortStrings {l : List String} {n : String} : n ∈ sortStrings l ↔ n ∈ l :=
  (sortStrings_perm l).mem_iff

theorem sortStrings_sortStrings (l : List String) : sortStrings (sortStrings l) = sortStrings l :=
  List.Sorted.insertionSort_eq (sortStrings_sorted l)

theorem sortStrings_length (l : List String) : (sortStrings l).length = l.length :=
  (sortStrings_perm l).length_eq

/-! ## Binary search -/

/-- The invariant of the search loop: with everything below `i` rejected and everything from `j`
on accepted, the loop ends at the boundary. -/
theorem searchLoop_spec (f : Nat → Bool) (n : Nat)
    (mono : ∀ k k2, k ≤ k2 → k2 < n → f k = true → f k2 = true) :
    ∀ fuel i j, i ≤ j → j ≤ n → j - i ≤ fuel →
      (∀ k, k < i → f k = false) → (∀ k, j ≤ k → k < n → f k = true) →
      searchLoop f fuel i j ≤ n ∧ (∀ k, k < searchLoop f fuel i j → f k = false) ∧
        (∀ k, searchLoop f fuel i j ≤ k → k < n → f k = true)
  | 0, i, j, hij, hjn, hfuel, hlo, hhi => by
    have hji : j = i := by omega
    subst hji
    exact ⟨hjn, hlo, hhi⟩
  | fuel + 1, i, j, hij, hjn, hfuel, hlo, hhi => by
    unfold searchLoop
    by_cases hlt : i < j
    · simp only [hlt, if_true]
      have hh1 : i ≤ (i + j) / 2 := by omega
      have hh2 : (i + j) / 2 < j := by omega
      cases hf : f ((i + j) / 2)
      · simp only [Bool.not_false, if_true]
        refine searchLoop_spec f n mono fuel _ j (by omega) hjn (by omega) ?_ hhi
        intro k hk
        cases hfk : f k
        · rfl
        · have := mono k ((i + j) / 2) (by omega) (by omega) hfk
          rw [hf] at this
          exact absurd this (by simp)
      · simp only [Bool.not_true, Bool.false_eq_true, if_false]
        refine searchLoop_spec f n mono fuel i _ hh1 (by omega) (by omega) hlo ?_
        intro k hk hkn
        exact mono _ k hk hkn hf
    · simp only [hlt, if_false]
      have hji : j = i := by omega
      subst hji
      exact ⟨hjn, hlo, hhi⟩

theorem getD_sorted_le {a : List String} (hs : a.Sorted (fun x y => strLe x y = true))
    {k k2 : Nat} (hk : k ≤ k2) (hk2 : k2 < a.length) :
    strLe (a.getD k "") (a.getD k2 "") = true := by
  rw [List.getD_eq_getElem a "" hk2, List.getD_eq_getElem a "" (lt_of_le_of_lt hk hk2)]
  rcases Nat.eq_or_lt_of_le hk with h | h
  · subst h; exact strLe_refl _
  · exact List.pairwise_iff_getElem.mp hs k k2 _ hk2 h

/-- On a sorted list `SearchStrings` finds the first position holding a string `≥ x`. -/
theorem SearchStrings_spec {a : List String} (hs : a.Sorted (fun x y => strLe x y = true))
    (x : String) :
    SearchStrings a x ≤ a.length ∧
      (∀ k, k < SearchStrings a x → strLe x (a.getD k "") = false) ∧
      (∀ k, SearchStrings a x ≤ k → k < a.length → strLe x (a.getD k "") = true) := by
  unfold SearchStrings Search
  refine searchLoop_spec _ a.length ?_ a.length 0 a.length (Nat.zero_le _) le_rfl (by omega)
    (fun k hk => absurd hk (Nat.not_lt_zero k)) (fun k hk hk2 => absurd hk2 (by omega))
  intro k k2 hk hk2 h
  exact strLe_trans h (getD_sorted_le hs hk hk2)

/-- The lookup shared by `isExcluded` and `isIncluded`, on a sorted list, is membership. -/
theorem lookup_sorted_iff {a : List String} (hs : a.Sorted (fun x y => strLe x y = true))
    (x : String) :
    (decide (SearchStrings a x < a.length) && (a.getD (SearchStrings a x) "" == x)) = true ↔
      x ∈ a := by
  obtain ⟨_, hlo, hhi⟩ := SearchStrings_spec hs x
  simp only [Bool.and_eq_true, decide_eq_true_eq, beq_iff_eq]
  constructor
  · rintro ⟨hlt, heq⟩
    rw [← heq, List.getD_eq_getElem a "" hlt]
    exact List.getElem_mem _
  · intro hx
    obtain ⟨k, hk, hkx⟩ := List.getElem_of_mem hx
    have hkd : a.getD k "" = x := by rw [List.getD_eq_getElem a "" hk, hkx]
    have hrk : SearchStrings a x ≤ k := by
      by_contra hcon
      have := hlo k (by omega)
      rw [hkd, strLe_refl] at this
      exact absurd this (by simp)
    have hlt : SearchStrings a x < a.length := by omega
    refine ⟨hlt, ?_⟩
    have h1 : strLe x (a.getD (SearchStrings a x) "") = true := hhi _ le_rfl hlt
    have h2 : strLe (a.getD (SearchStrings a x) "") x = true := by
      have := getD_sorted_le hs hrk hk
      rwa [hkd] at this
    exact strLe_antisymm h2 h1

theorem isExcluded_sortStrings (l : List String) (n : String) :
    isExcluded (sortStrings l) n = true ↔ n ∈ l := by
  unfold isExcluded
  exact (lookup_sorted_iff (sortStrings_sorted l) n).trans mem_sortStrings

theorem isIncluded_sortStrings (l : List String) (n : String) :
    isIncluded (sortStrings l) n = true ↔ n ∈ l := by
  unfold isIncluded
  exact (lookup_sorted_iff (sortStrings_sorted l) n).trans mem_sortStrings

theorem isExcluded_eq_false_iff (l : List String) (n : String) :
    isExcluded (sortStrings l) n = false ↔ n ∉ l := by
  rw [← isExcluded_sortStrings l n]; simp

/-! ## The loops in closed form -/

theorem stdObjectsLoop_eq (p : Bool) : ∀ (sobjects acc : List String),
    stdObjectsLoop p sobjects acc = acc ++ sobjects.filter (survives p)
  | [], acc => by simp [stdObjectsLoop]
  | name :: rest, acc => by
    have hs : survives p name = ((if Count name "__" > 1 then (if !p then false else true)
        else true) && !HasSuffix name "Tag" && !HasSuffix name "History" &&
        !HasSuffix name "Share" && !HasSuffix name "ChangeEvent" && !HasSuffix name "Feed") := by
      unfold survives
      by_cases hc : Count name "__" > 1 <;> cases p <;>
        cases HasSuffix name "Tag" <;> cases HasSuffix name "History" <;>
        cases HasSuffix name "Share" <;> cases HasSuffix name "ChangeEvent" <;>
        cases HasSuffix name "Feed" <;> (simp [hc]; try omega)
    unfold stdObjectsLoop
    simp only [← hs]
    cases hsv : survives p name
    · simp [stdObjectsLoop_eq p rest acc, List.filter_cons, hsv]
    · simp [stdObjectsLoop_eq p rest (acc ++ [name]), List.filter_cons, hsv]

theorem stdObjects_eq (p : Bool) (sobjects : List String) :
    stdObjects p sobjects = "*" :: sobjects.filter (survives p) ++ ["Activity"] := by
  simp [stdObjects, stdObjectsLoop_eq]

theorem customObjectStep_eq (flags : Flags) (sobjects : List String)
    (query : ForceMetadataQuery) :
    customObjectStep flags.includeManagedPackages (sortStrings flags.excludeMetadataNames)
      (sortStrings flags.includeMetadataNames) sobjects query =
      query ++ objectPart flags sobjects := by
  unfold customObjectStep objectPart
  by_cases h : "CustomObject" ∉ flags.excludeMetadataNames ∨
      "CustomObject" ∈ flags.includeMetadataNames
  · have h2 : (!isExcluded (sortStrings flags.excludeMetadataNames) "CustomObject" ||
        isIncluded (sortStrings flags.includeMetadataNames) "CustomObject") = true := by
      rcases h with h | h
      · simp [(isExcluded_eq_false_iff _ _).mpr h]
      · simp [(isIncluded_sortStrings _ _).mpr h]
    simp only [h2, if_true, h, customObjectElement, stdObjects_eq]
  · have h2 : (!isExcluded (sortStrings flags.excludeMetadataNames) "CustomObject" ||
        isIncluded (sortStrings flags.includeMetadataNames) "CustomObject") = false := by
      simp only [not_or, not_not] at h
      have h3 := (isExcluded_sortStrings _ _).mpr h.1
      have h4 : isIncluded (sortStrings flags.includeMetadataNames) "CustomObject" = false := by
        rw [← Bool.not_eq_true, isIncluded_sortStrings]; exact h.2
      simp [h3, h4]
    simp [h2, h]

theorem namesLoop_eq (exclude : List String) : ∀ (names : List String)
    (query : ForceMetadataQuery),
    namesLoop (sortStrings exclude) names query = query ++ catalogPart exclude names
  | [], query => by simp [namesLoop, catalogPart]
  | name :: rest, query => by
    unfold namesLoop
    by_cases h : name ∈ exclude
    · simp [(isExcluded_sortStrings _ _).mpr h, namesLoop_eq exclude rest query, catalogPart,
        List.filter_cons, h]
    · simp [(isExcluded_eq_false_iff _ _).mpr h, namesLoop_eq exclude rest, catalogPart,
        List.filter_cons, h, wildcard]

theorem foldersLoop_of_ok (force : Force) (exclude : List String) :
    ∀ (folders : List (String × List String)) (calls : List Call) (query : ForceMetadataQuery),
      (∀ p ∈ folders, ∃ ms, force.GetMetadataInFolders (metadataTypeOf p.1) p.2 = .ok ms) →
      foldersLoop force (sortStrings exclude) folders calls query =
        (calls ++ folders.map folderCall, .ok (query ++ folderPart force exclude folders))
  | [], calls, query, _ => by simp [foldersLoop, folderPart]
  | (t, ns) :: rest, calls, query, h => by
    obtain ⟨ms, hms⟩ := h (t, ns) (List.mem_cons_self _ _)
    have hrest : ∀ p ∈ rest, ∃ ms, force.GetMetadataInFolders (metadataTypeOf p.1) p.2 = .ok ms :=
      fun p hp => h p (List.mem_cons_of_mem _ hp)
    unfold foldersLoop
    simp only [hms]
    by_cases hx : metadataTypeOf t ∈ exclude
    · simp [(isExcluded_sortStrings _ _).mpr hx, foldersLoop_of_ok force exclude rest _ _ hrest,
        folderPart, folderElement, hms, hx, folderCall]
    · simp [(isExcluded_eq_false_iff _ _).mpr hx, foldersLoop_of_ok force exclude rest _ _ hrest,
        folderPart, folderElement, hms, hx, folderCall]

theorem foldersLoop_ok_inv (force : Force) (exclude : List String) :
    ∀ (folders : List (String × List String)) (calls : List Call) (query : ForceMetadataQuery)
      (calls2 : List Call) (query2 : ForceMetadataQuery),
      foldersLoop force exclude folders calls query = (calls2, .ok query2) →
      ∀ p ∈ folders, ∃ ms, force.GetMetadataInFolders (metadataTypeOf p.1) p.2 = .ok ms
  | [], _, _, _, _, _ => by simp
  | (t, ns) :: rest, calls, query, calls2, query2, h => by
    unfold foldersLoop at h
    cases hms : force.GetMetadataInFolders (metadataTypeOf t) ns with
    | error e => simp [hms] at h
    | ok ms =>
      simp only [hms] at h
      intro p hp
      rcases List.mem_cons.mp hp with rfl | hp
      · exact ⟨ms, hms⟩
      · split at h
        · exact foldersLoop_ok_inv force exclude rest _ _ _ _ h p hp
        · exact foldersLoop_ok_inv force exclude rest _ _ _ _ h p hp

/-- The failing member listing stops the folder loop with the wrapped message. -/
theorem foldersLoop_error_inv (force : Force) (exclude : List String) :
    ∀ (folders : List (String × List String)) (calls : List Call) (query : ForceMetadataQuery)
      (calls2 : List Call) (msg : String),
      foldersLoop force exclude folders calls query = (calls2, .error msg) →
      ∃ p ∈ folders, ∃ e, force.GetMetadataInFolders (metadataTypeOf p.1) p.2 = .error e ∧
        msg = "Could not get metadata in folders: " ++ e
  | [], _, _, _, _, h => by simp [foldersLoop] at h
  | (t, ns) :: rest, calls, query, calls2, msg, h => by
    unfold foldersLoop at h
    cases hms : force.GetMetadataInFolders (metadataTypeOf t) ns with
    | error e =>
      simp only [hms, Prod.mk.injEq, Except.error.injEq] at h
      exact ⟨(t, ns), List.mem_cons_self _ _, e, hms, h.2.symm⟩
    | ok ms =>
      simp only [hms] at h
      split at h
      · obtain ⟨p, hp, e, he⟩ := foldersLoop_error_inv force exclude rest _ _ _ _ h
        exact ⟨p, List.mem_cons_of_mem _ hp, e, he⟩
      · obtain ⟨p, hp, e, he⟩ := foldersLoop_error_inv force exclude rest _ _ _ _ h
        exact ⟨p, List.mem_cons_of_mem _ hp, e, he⟩

/-! ## The assembled document -/

theorem sortStrings_length_pos {l : List String} (h : l ≠ []) : (sortStrings l).length > 0 := by
  rw [sortStrings_length]; exact List.length_pos.mpr h

/-- With a non-empty include filter the document is the object part followed by the include
filter's names, and only the object lister is called. -/
theorem assemble_include (force : Force) (flags : Flags) (sobjects : List String)
    (hI : flags.includeMetadataNames ≠ []) (hs : force.ListSobjects = .ok sobjects) :
    assemble force flags = ([Call.ListSobjects], .ok (objectPart flags sobjects ++
      catalogPart flags.excludeMetadataNames (sortStrings flags.includeMetadataNames))) := by
  have hpos := sortStrings_length_pos hI
  have hne : (sortStrings flags.includeMetadataNames).length ≠ 0 := by omega
  unfold assemble
  simp only [hs, hpos, if_true, hne, if_false, sortStrings_sortStrings, customObjectStep_eq,
    namesLoop_eq, List.nil_append]

/-- With an empty include filter and a discovery that succeeds the document is the object part,
the static catalog and the folder part. -/
theorem assemble_all (force : Force) (flags : Flags) (sobjects : List String)
    (folders : List (String × List String))
    (hI : flags.includeMetadataNames = []) (hs : force.ListSobjects = .ok sobjects)
    (hf : force.GetAllFolders = .ok folders)
    (hm : ∀ p ∈ folders, ∃ ms, force.GetMetadataInFolders (metadataTypeOf p.1) p.2 = .ok ms) :
    assemble force flags =
      ([Call.ListSobjects, Call.GetAllFolders] ++ folders.map folderCall,
        .ok (objectPart flags sobjects ++ catalogPart flags.excludeMetadataNames metadataNames ++
          folderPart force flags.excludeMetadataNames folders)) := by
  have h0 : (sortStrings flags.includeMetadataNames).length = 0 := by
    rw [sortStrings_length, hI]; rfl
  have hpos : ¬ (sortStrings flags.includeMetadataNames).length > 0 := by omega
  unfold assemble
  simp only [hs, h0, if_true, hf, customObjectStep_eq, namesLoop_eq,
    List.nil_append, foldersLoop_of_ok force _ folders _ _ hm, gt_iff_lt, Nat.lt_irrefl,
    if_false]

/-- Every document that gets assembled has one of the two closed forms. -/
theorem assemble_ok_inv (force : Force) (flags : Flags) (calls : List Call)
    (query : ForceMetadataQuery) (h : assemble force flags = (calls, .ok query)) :
    ∃ sobjects, force.ListSobjects = .ok sobjects ∧
      ((flags.includeMetadataNames ≠ [] ∧ calls = [Call.ListSobjects] ∧
          query = objectPart flags sobjects ++
            catalogPart flags.excludeMetadataNames (sortStrings flags.includeMetadataNames)) ∨
        (flags.includeMetadataNames = [] ∧ ∃ folders, force.GetAllFolders = .ok folders ∧
          (∀ p ∈ folders, ∃ ms,
            force.GetMetadataInFolders (metadataTypeOf p.1) p.2 = .ok ms) ∧
          calls = [Call.ListSobjects, Call.GetAllFolders] ++ folders.map folderCall ∧
          query = objectPart flags sobjects ++
            catalogPart flags.excludeMetadataNames metadataNames ++
            folderPart force flags.excludeMetadataNames folders)) := by
  cases hs : force.ListSobjects with
  | error e => simp [assemble, hs] at h
  | ok sobjects =>
    refine ⟨sobjects, rfl, ?_⟩
    by_cases hI : flags.includeMetadataNames = []
    · right
      refine ⟨hI, ?_⟩
      have h0 : (sortStrings flags.includeMetadataNames).length = 0 := by
        rw [sortStrings_length, hI]; rfl
      have hpos : ¬ (sortStrings flags.includeMetadataNames).length > 0 := by omega
      cases hf : force.GetAllFolders with
      | error e =>
        unfold assemble at h
        simp [hs, h0, hf] at h
      | ok folders =>
        have h2 := h
        unfold assemble at h2
        simp only [hs, hpos, if_false, h0, if_true, hf] at h2
        have hm := foldersLoop_ok_inv force _ folders _ _ _ _ h2
        have h3 := assemble_all force flags sobjects folders hI hs hf hm
        rw [h] at h3
        simp only [Prod.mk.injEq, Except.ok.injEq] at h3
        exact ⟨folders, rfl, hm, h3.1, h3.2⟩
    · left
      have h3 := assemble_include force flags sobjects hI hs
      rw [h] at h3
      simp only [Prod.mk.injEq, Except.ok.injEq] at h3
      exact ⟨hI, h3.1, h3.2⟩

/-! ## Elements and type names of the parts -/

theorem mem_objectPart {flags : Flags} {sobjects : List String} {e : ForceMetadataQueryElement}
    (h : e ∈ objectPart flags sobjects) :
    ("CustomObject" ∉ flags.excludeMetadataNames ∨
        "CustomObject" ∈ flags.includeMetadataNames) ∧
      e = customObjectElement flags.includeManagedPackages sobjects ∧
      objectPart flags sobjects = [e] := by
  unfold objectPart at h ⊢
  by_cases hc : "CustomObject" ∉ flags.excludeMetadataNames ∨
      "CustomObject" ∈ flags.includeMetadataNames
  · simp only [hc, if_true, List.mem_singleton] at h ⊢
    exact ⟨trivial, h, by rw [h]⟩
  · simp [hc] at h

theorem mem_catalogPart {exclude names : List String} {e : ForceMetadataQueryElement} :
    e ∈ catalogPart exclude names ↔ ∃ n ∈ names, n ∉ exclude ∧ e = wildcard n := by
  unfold catalogPart
  simp only [List.mem_map, List.mem_filter, decide_eq_true_eq]
  constructor
  · rintro ⟨n, ⟨h1, h2⟩, rfl⟩; exact ⟨n, h1, h2, rfl⟩
  · rintro ⟨n, h1, h2, rfl⟩; exact ⟨n, ⟨h1, h2⟩, rfl⟩

theorem mem_folderPart {force : Force} {exclude : List String}
    {folders : List (String × List String)} {e : ForceMetadataQueryElement} :
    e ∈ folderPart force exclude folders ↔
      ∃ p ∈ folders, ∃ ms, force.GetMetadataInFolders (metadataTypeOf p.1) p.2 = .ok ms ∧
        metadataTypeOf p.1 ∉ exclude ∧ e = ⟨[metadataTypeOf p.1], ms⟩ := by
  unfold folderPart
  simp only [List.mem_filterMap]
  constructor
  · rintro ⟨p, hp, he⟩
    unfold folderElement at he
    cases hms : force.GetMetadataInFolders (metadataTypeOf p.1) p.2 with
    | error err => simp [hms] at he
    | ok ms =>
      simp only [hms] at he
      by_cases hx : metadataTypeOf p.1 ∈ exclude
      · simp [hx] at he
      · simp only [hx, if_false, Option.some.injEq] at he
        exact ⟨p, hp, ms, hms, hx, he.symm⟩
  · rintro ⟨p, hp, ms, hms, hx, rfl⟩
    exact ⟨p, hp, by simp [folderElement, hms, hx]⟩

theorem typeNames_append : ∀ (a b : ForceMetadataQuery),
    typeNames (a ++ b) = typeNames a ++ typeNames b
  | [], b => rfl
  | e :: a, b => by simp [typeNames, typeNames_append a b]

theorem mem_typeNames {n : String} : ∀ {q : ForceMetadataQuery},
    n ∈ typeNames q ↔ ∃ e ∈ q, n ∈ e.Name
  | [] => by simp [typeNames]
  | e :: q => by simp [typeNames, mem_typeNames (q := q)]

theorem typeNames_catalogPart (exclude : List String) : ∀ names : List String,
    typeNames (catalogPart exclude names) = names.filter (fun n => decide (n ∉ exclude))
  | [] => rfl
  | n :: names => by
    have ih := typeNames_catalogPart exclude names
    unfold catalogPart at ih ⊢
    by_cases h : n ∈ exclude
    · simpa [List.filter_cons, h] using ih
    · simpa [List.filter_cons, h, typeNames, wildcard] using ih

theorem typeNames_folderPart (force : Force) (exclude : List String) :
    ∀ folders : List (String × List String),
      (∀ p ∈ folders, ∃ ms, force.GetMetadataInFolders (metadataTypeOf p.1) p.2 = .ok ms) →
      typeNames (folderPart force exclude folders) =
        (folders.map (fun p => metadataTypeOf p.1)).filter (fun t => decide (t ∉ exclude))
  | [], _ => rfl
  | p :: folders, h => by
    obtain ⟨ms, hms⟩ := h p (List.mem_cons_self _ _)
    have ih := typeNames_folderPart force exclude folders
      (fun q hq => h q (List.mem_cons_of_mem _ hq))
    unfold folderPart at ih ⊢
    by_cases hx : metadataTypeOf p.1 ∈ exclude
    · simpa [List.filterMap_cons, folderElement, hms, hx, List.filter_cons] using ih
    · simpa [List.filterMap_cons, folderElement, hms, hx, List.filter_cons, typeNames] using ih

theorem typeNames_objectPart_subset {flags : Flags} {sobjects : List String} {n : String}
    (h : n ∈ typeNames (objectPart flags sobjects)) : n = "CustomObject" := by
  obtain ⟨e, he, hn⟩ := mem_typeNames.mp h
  obtain ⟨_, rfl, _⟩ := mem_objectPart he
  simpa [customObjectElement] using hn

theorem typeNames_objectPart_nodup (flags : Flags) (sobjects : List String) :
    (typeNames (objectPart flags sobjects)).Nodup := by
  unfold objectPart
  split <;> simp [typeNames, customObjectElement]

/-! ## Facts about the static catalog -/

theorem increasing_sorted : ∀ l : List Nat, increasing l = true → l.Sorted (fun a b => a < b)
  | [], _ => List.sorted_nil
  | [_], _ => List.sorted_singleton _
  | x :: y :: rest, h => by
    simp only [increasing, Bool.and_eq_true, decide_eq_true_eq] at h
    have ih := increasing_sorted (y :: rest) h.2
    refine List.sorted_cons.mpr ⟨?_, ih⟩
    intro b hb
    rcases List.mem_cons.mp hb with rfl | hb
    · exact h.1
    · exact lt_trans h.1 (List.rel_of_sorted_cons ih b hb)

set_option maxRecDepth 100000 in
theorem metadataNames_keys_increasing : increasing (metadataNames.map catalogKey) = true := by
  decide!

/-- The static catalog lists no name twice. -/
theorem metadataNames_nodup : metadataNames.Nodup :=
  List.Nodup.of_map catalogKey (increasing_sorted _ metadataNames_keys_increasing).nodup

set_option maxRecDepth 100000 in
/-- The static catalog does not list `CustomObject`. -/
theorem customObject_not_mem_metadataNames : "CustomObject" ∉ metadataNames := by decide!

set_option maxRecDepth 100000 in
/-- The static catalog does not list `Email`. -/
theorem email_not_mem_metadataNames : "Email" ∉ metadataNames := by decide!

set_option maxRecDepth 100000 in
/-- The static catalog lists `EmailTemplate`. -/
theorem emailTemplate_mem_metadataNames : "EmailTemplate" ∈ metadataNames := by decide!

/-! ## The exclude filter -/

/-- C2: for every list of names passed to the exclude filter and every name, once the list has
been sorted as `runExport` sorts it, `isExcluded` answers true exactly when the name is one of
the names passed, whatever their order. -/
theorem isExcluded_iff_passed (L : List String) (N : String) :
    isExcluded (sortStrings L) N = true ↔ N ∈ L := by
  unfold isExcluded
  exact (lookup_sorted_iff (sortStrings_sorted L) N).trans mem_sortStrings

/-- C1, as stated, fails: with `CustomObject` both excluded and included the document holds the
`CustomObject` element. -/
theorem excluded_customObject_in_document :
    assemble sampleForce ⟨false, false, ["CustomObject"], ["CustomObject"]⟩ =
        ([Call.ListSobjects], .ok [⟨["CustomObject"], ["*", "Account", "Activity"]⟩]) ∧
      ¬ (∀ e ∈ [(⟨["CustomObject"], ["*", "Account", "Activity"]⟩ : ForceMetadataQueryElement)],
          ∀ n ∈ e.Name, n ∉ ["CustomObject"]) := by
  refine ⟨rfl, by decide⟩

/-- C1, amended: in every assembled document an element whose type name is in the exclude filter
can only be the `CustomObject` element at the head of the document, and only when `CustomObject`
is in the include filter as well; with exclude filter `["ApexClass"]` no element names
`ApexClass`. -/
theorem excluded_only_customObject (force : Force) (flags : Flags) (calls : List Call)
    (query : ForceMetadataQuery) (h : assemble force flags = (calls, .ok query)) :
    (∀ e ∈ query, ∀ n ∈ e.Name, n ∈ flags.excludeMetadataNames →
        n = "CustomObject" ∧ "CustomObject" ∈ flags.includeMetadataNames ∧
          query.head? = some e) ∧
      (flags.excludeMetadataNames = ["ApexClass"] → ∀ e ∈ query, "ApexClass" ∉ e.Name) := by
  have key : ∀ e ∈ query, ∀ n ∈ e.Name, n ∈ flags.excludeMetadataNames →
      n = "CustomObject" ∧ "CustomObject" ∈ flags.includeMetadataNames ∧
        query.head? = some e := by
    intro e he n hn hx
    obtain ⟨sobjects, _, hq⟩ := assemble_ok_inv force flags calls query h
    have hobj : e ∈ objectPart flags sobjects → n = "CustomObject" ∧
        "CustomObject" ∈ flags.includeMetadataNames ∧
        (objectPart flags sobjects).head? = some e := by
      intro ho
      obtain ⟨hc, rfl, hl⟩ := mem_objectPart ho
      have hn2 : n = "CustomObject" := by simpa [customObjectElement] using hn
      subst hn2
      refine ⟨rfl, ?_, by rw [hl]; rfl⟩
      rcases hc with hc | hc
      · exact absurd hx hc
      · exact hc
    have hcat : ∀ names, e ∉ catalogPart flags.excludeMetadataNames names := by
      intro names hc
      obtain ⟨m, _, hm, rfl⟩ := mem_catalogPart.mp hc
      have : n = m := by simpa [wildcard] using hn
      exact hm (this ▸ hx)
    have hfold : ∀ folders, e ∉ folderPart force flags.excludeMetadataNames folders := by
      intro folders hc
      obtain ⟨p, _, ms, _, hm, rfl⟩ := mem_folderPart.mp hc
      have : n = metadataTypeOf p.1 := by simpa using hn
      exact hm (this ▸ hx)
    have hhead : ∀ rest : ForceMetadataQuery, e ∈ objectPart flags sobjects →
        (objectPart flags sobjects ++ rest).head? = some e := by
      intro rest ho
      obtain ⟨_, _, hl⟩ := mem_objectPart ho
      rw [hl]; rfl
    rcases hq with ⟨_, _, rfl⟩ | ⟨_, folders, _, _, _, rfl⟩
    · rcases List.mem_append.mp he with ho | hc
      · exact ⟨(hobj ho).1, (hobj ho).2.1, hhead _ ho⟩
      · exact absurd hc (hcat _)
    · rcases List.mem_append.mp he with ho | hc
      · rcases List.mem_append.mp ho with ho | hc
        · rw [List.append_assoc]
          exact ⟨(hobj ho).1, (hobj ho).2.1, hhead _ ho⟩
        · exact absurd hc (hcat _)
      · exact absurd hc (hfold _)
  refine ⟨key, ?_⟩
  intro hx e he hn
  have := (key e he "ApexClass" hn (by rw [hx]; exact List.mem_singleton.mpr rfl)).1
  exact absurd this (by decide)

/-- The amended C1 at a run with exclude filter `["ApexClass"]` and include filter
`["ApexClass", "Flow"]`: the document is assembled and no element names `ApexClass`. -/
theorem excluded_only_customObject_witness :
    assemble sampleForce ⟨false, false, ["ApexClass"], ["ApexClass", "Flow"]⟩ =
        ([Call.ListSobjects],
          .ok [⟨["CustomObject"], ["*", "Account", "Activity"]⟩, ⟨["Flow"], ["*"]⟩]) ∧
      ∀ e ∈ [(⟨["CustomObject"], ["*", "Account", "Activity"]⟩ : ForceMetadataQueryElement),
        ⟨["Flow"], ["*"]⟩], "ApexClass" ∉ e.Name :=
  ⟨rfl, (excluded_only_customObject sampleForce
    ⟨false, false, ["ApexClass"], ["ApexClass", "Flow"]⟩ [Call.ListSobjects]
    [⟨["CustomObject"], ["*", "Account", "Activity"]⟩, ⟨["Flow"], ["*"]⟩] rfl).2 rfl⟩

/-! ## The include filter -/

/-- C3, as stated, fails: an include filter is a list, and a name passed twice (`-i Flow
-i Flow`) gets two elements, not exactly one. -/
theorem include_entry_twice :
    assemble sampleForce ⟨false, false, [], ["Flow", "Flow"]⟩ =
      ([Call.ListSobjects], .ok [⟨["CustomObject"], ["*", "Account", "Activity"]⟩,
        ⟨["Flow"], ["*"]⟩, ⟨["Flow"], ["*"]⟩]) := rfl

/-- C3, amended: for every non-empty include filter and every exclude filter, when the object
listing succeeds the document is the `CustomObject` element (if it is built) followed by one
wildcard element per entry of the sorted include filter that is not excluded, in that order, so
that a name passed twice has two elements and, when no name is passed twice, every name has
exactly one; only the object lister is called, so no folder lister is consulted and no folder
element is added; a name of the static catalog appears only if it is in the include filter; and
with include filter `["Flow"]` the elements after the object part are the single wildcard
element of `Flow` when `Flow` is not excluded, and none when it is. -/
theorem include_filter_replaces_catalog (force : Force) (flags : Flags)
    (sobjects : List String) (hI : flags.includeMetadataNames ≠ [])
    (hs : force.ListSobjects = .ok sobjects) :
    assemble force flags = ([Call.ListSobjects], .ok (objectPart flags sobjects ++
        ((sortStrings flags.includeMetadataNames).filter
          (fun n => decide (n ∉ flags.excludeMetadataNames))).map
            (fun n => (⟨[n], ["*"]⟩ : ForceMetadataQueryElement)))) ∧
      (flags.includeMetadataNames.Nodup →
        (typeNames (((sortStrings flags.includeMetadataNames).filter
          (fun n => decide (n ∉ flags.excludeMetadataNames))).map
            (fun n => (⟨[n], ["*"]⟩ : ForceMetadataQueryElement)))).Nodup) ∧
      (∀ e ∈ objectPart flags sobjects ++
          ((sortStrings flags.includeMetadataNames).filter
            (fun n => decide (n ∉ flags.excludeMetadataNames))).map
              (fun n => (⟨[n], ["*"]⟩ : ForceMetadataQueryElement)),
        ∀ n ∈ e.Name, n ∈ metadataNames → n ∈ flags.includeMetadataNames) ∧
      (flags.includeMetadataNames = ["Flow"] →
        ((sortStrings flags.includeMetadataNames).filter
            (fun n => decide (n ∉ flags.excludeMetadataNames))).map
              (fun n => (⟨[n], ["*"]⟩ : ForceMetadataQueryElement)) =
          if "Flow" ∈ flags.excludeMetadataNames then [] else [⟨["Flow"], ["*"]⟩]) := by
  refine ⟨assemble_include force flags sobjects hI hs, ?_, ?_, ?_⟩
  · intro hnd
    have h := typeNames_catalogPart flags.excludeMetadataNames
      (sortStrings flags.includeMetadataNames)
    unfold catalogPart wildcard at h
    rw [h]
    exact ((sortStrings_perm flags.includeMetadataNames).nodup_iff.mpr hnd).filter _
  · intro e he n hn hcat
    rcases List.mem_append.mp he with ho | hc
    · obtain ⟨_, rfl, _⟩ := mem_objectPart ho
      have : n = "CustomObject" := by simpa [customObjectElement] using hn
      exact absurd (this ▸ hcat) customObject_not_mem_metadataNames
    · obtain ⟨m, hm, _, rfl⟩ := (@mem_catalogPart flags.excludeMetadataNames _ _).mp hc
      have : n = m := by simpa [wildcard] using hn
      exact this ▸ mem_sortStrings.mp hm
  · intro hflow
    rw [hflow]
    have : sortStrings ["Flow"] = ["Flow"] := rfl
    rw [this]
    by_cases hx : "Flow" ∈ flags.excludeMetadataNames <;> simp [List.filter_cons, hx]

/-- The amended C3 at include filter `["Flow"]` with `Flow` not excluded: after the
`CustomObject` element the document holds the single element `Flow`, and only the object lister
was called. -/
theorem include_filter_replaces_catalog_witness :
    assemble sampleForce ⟨false, false, ["ApexClass"], ["Flow"]⟩ =
      ([Call.ListSobjects],
        .ok [⟨["CustomObject"], ["*", "Account", "Activity"]⟩, ⟨["Flow"], ["*"]⟩]) :=
  (include_filter_replaces_catalog sampleForce ⟨false, false, ["ApexClass"], ["Flow"]⟩
    ["Account", "Foo__bar__baz"] (by decide) rfl).1

/-! ## The static catalog -/

/-- C4: with an empty include filter and a discovery that succeeds, the document is assembled,
every name of the static catalog that is not in the exclude filter has its own wildcard element
in it, and an element named `CustomObject` is in it exactly when `CustomObject` is not in the
exclude filter. -/
theorem static_catalog_unless_excluded (force : Force) (flags : Flags) (sobjects : List String)
    (folders : List (String × List String))
    (hI : flags.includeMetadataNames = []) (hs : force.ListSobjects = .ok sobjects)
    (hf : force.GetAllFolders = .ok folders)
    (hm : ∀ p ∈ folders, ∃ ms, force.GetMetadataInFolders (metadataTypeOf p.1) p.2 = .ok ms) :
    ∃ calls query, assemble force flags = (calls, .ok query) ∧
      (∀ n ∈ metadataNames, n ∉ flags.excludeMetadataNames →
        (⟨[n], ["*"]⟩ : ForceMetadataQueryElement) ∈ query) ∧
      ((∃ e ∈ query, "CustomObject" ∈ e.Name) ↔
        "CustomObject" ∉ flags.excludeMetadataNames) := by
  refine ⟨_, _, assemble_all force flags sobjects folders hI hs hf hm, ?_, ?_⟩
  · intro n hn hx
    refine List.mem_append_left _ (List.mem_append_right _ ?_)
    exact mem_catalogPart.mpr ⟨n, hn, hx, rfl⟩
  · constructor
    · rintro ⟨e, he, hn⟩ hx
      rcases List.mem_append.mp he with he | hc
      · rcases List.mem_append.mp he with ho | hc
        · obtain ⟨hc, _, _⟩ := mem_objectPart ho
          rw [hI] at hc
          rcases hc with hc | hc
          · exact hc hx
          · simp at hc
        · obtain ⟨m, _, hm2, rfl⟩ := mem_catalogPart.mp hc
          have : "CustomObject" = m := by simpa [wildcard] using hn
          exact hm2 (this ▸ hx)
      · obtain ⟨p, _, ms, _, hm2, rfl⟩ := mem_folderPart.mp hc
        have : "CustomObject" = metadataTypeOf p.1 := by simpa using hn
        exact hm2 (this ▸ hx)
    · intro hx
      refine ⟨customObjectElement flags.includeManagedPackages sobjects, ?_, ?_⟩
      · refine List.mem_append_left _ (List.mem_append_left _ ?_)
        simp [objectPart, hx]
      · simp [customObjectElement]

/-- C4 at the sample service with exclude filter `["ApexClass"]`: `Flow` keeps its wildcard
element. -/
theorem static_catalog_unless_excluded_witness :
    ∃ calls query, assemble sampleForce ⟨false, false, ["ApexClass"], []⟩ = (calls, .ok query) ∧
      (⟨["Flow"], ["*"]⟩ : ForceMetadataQueryElement) ∈ query := by
  obtain ⟨calls, query, h, hcat, _⟩ := static_catalog_unless_excluded sampleForce
    ⟨false, false, ["ApexClass"], []⟩ ["Account", "Foo__bar__baz"]
    [("Email", ["Inbox"]), ("Report", ["Sales"])] rfl rfl rfl (fun p _ => ⟨p.2, rfl⟩)
  exact ⟨calls, query, h, hcat "Flow" (by decide) (by decide)⟩

/-! ## The `CustomObject` element -/

/-- C5: whenever the `CustomObject` element is built, its members are `*`, then the listed
object names that survive, in listing order, then `Activity`; a name survives exactly when it
ends in none of `Tag`, `History`, `Share`, `ChangeEvent`, `Feed` and holds `__` at most once or
managed packages are included.  The element heads every document assembled from that listing.
`A__b__c` survives only with the flag set, `Foo__Share` never survives, `Activity` is always a
member, and the listing `Account`, `Foo__bar__baz` with no filter and the flag off gives the
members `*`, `Account`, `Activity`. -/
theorem customObject_members (flags : Flags) (sobjects : List String)
    (query : ForceMetadataQuery)
    (hc : (!isExcluded (sortStrings flags.excludeMetadataNames) "CustomObject" ||
      isIncluded (sortStrings flags.includeMetadataNames) "CustomObject") = true) :
    customObjectStep flags.includeManagedPackages (sortStrings flags.excludeMetadataNames)
        (sortStrings flags.includeMetadataNames) sobjects query =
      query ++ [⟨["CustomObject"],
        "*" :: sobjects.filter (survives flags.includeManagedPackages) ++ ["Activity"]⟩] ∧
    (∀ (force : Force) (calls : List Call) (doc : ForceMetadataQuery),
      force.ListSobjects = .ok sobjects → assemble force flags = (calls, .ok doc) →
      doc.head? = some ⟨["CustomObject"],
        "*" :: sobjects.filter (survives flags.includeManagedPackages) ++ ["Activity"]⟩) ∧
    survives false "A__b__c" = false ∧ survives true "A__b__c" = true ∧
    (∀ p, survives p "Foo__Share" = false) ∧
    "Activity" ∈ "*" :: sobjects.filter (survives flags.includeManagedPackages) ++ ["Activity"] ∧
    customObjectStep false (sortStrings []) (sortStrings []) ["Account", "Foo__bar__baz"] [] =
      [⟨["CustomObject"], ["*", "Account", "Activity"]⟩] := by
  have hstep : customObjectStep flags.includeManagedPackages
      (sortStrings flags.excludeMetadataNames) (sortStrings flags.includeMetadataNames)
      sobjects query = query ++ [⟨["CustomObject"],
        "*" :: sobjects.filter (survives flags.includeManagedPackages) ++ ["Activity"]⟩] := by
    unfold customObjectStep
    simp only [hc, if_true, stdObjects_eq]
  refine ⟨hstep, ?_, by decide, by decide, ?_, by simp, by decide⟩
  · intro force calls doc hs h
    have hobj : objectPart flags sobjects = [⟨["CustomObject"],
        "*" :: sobjects.filter (survives flags.includeManagedPackages) ++ ["Activity"]⟩] := by
      have h1 := customObjectStep_eq flags sobjects []
      rw [List.nil_append] at h1
      rw [← h1]
      unfold customObjectStep
      simp only [hc, if_true, stdObjects_eq, List.nil_append]
    obtain ⟨sobjects2, hs2, hq⟩ := assemble_ok_inv force flags calls doc h
    rw [hs] at hs2
    cases hs2
    rcases hq with ⟨_, _, rfl⟩ | ⟨_, folders, _, _, _, rfl⟩
    · rw [hobj]; rfl
    · rw [hobj]; rfl
  · intro p
    cases p <;> decide

/-- C5 at the listing `Account`, `Foo__bar__baz`, `Foo__Share` with managed packages off. -/
theorem customObject_members_witness :
    customObjectStep false (sortStrings ["ApexClass"]) (sortStrings [])
        ["Account", "Foo__bar__baz", "Foo__Share"] [] =
      [⟨["CustomObject"], ["*", "Account", "Activity"]⟩] :=
  (customObject_members ⟨false, false, ["ApexClass"], []⟩
    ["Account", "Foo__bar__baz", "Foo__Share"] [] (by decide)).1

/-! ## Repeated type names -/

/-- C6, on the code: the folder type `Email` is reported as `EmailTemplate`, which the static
catalog lists as well, so with no filter and an `Email` folder in the listing the document holds
two elements named `EmailTemplate` and its type names repeat. -/
theorem emailTemplate_named_twice :
    ∃ calls query, assemble sampleForce noFlags = (calls, .ok query) ∧
      (⟨["EmailTemplate"], ["*"]⟩ : ForceMetadataQueryElement) ∈ query ∧
      (⟨["EmailTemplate"], ["Inbox"]⟩ : ForceMetadataQueryElement) ∈ query ∧
      ¬ (typeNames query).Nodup := by
  have h := assemble_all sampleForce noFlags ["Account", "Foo__bar__baz"]
    [("Email", ["Inbox"]), ("Report", ["Sales"])] rfl rfl rfl (fun p _ => ⟨p.2, rfl⟩)
  have h1 : (⟨["EmailTemplate"], ["*"]⟩ : ForceMetadataQueryElement) ∈
      catalogPart noFlags.excludeMetadataNames metadataNames :=
    mem_catalogPart.mpr ⟨"EmailTemplate", emailTemplate_mem_metadataNames, by decide, rfl⟩
  have h2 : (⟨["EmailTemplate"], ["Inbox"]⟩ : ForceMetadataQueryElement) ∈
      folderPart sampleForce noFlags.excludeMetadataNames
        [("Email", ["Inbox"]), ("Report", ["Sales"])] := by decide
  refine ⟨_, _, h, List.mem_append_left _ (List.mem_append_right _ h1),
    List.mem_append_right _ h2, ?_⟩
  rw [typeNames_append]
  intro hnd
  have hdis := (List.nodup_append.mp hnd).2.2
  refine hdis (a := "EmailTemplate") ?_ ?_
  · rw [typeNames_append]
    exact List.mem_append_right _ (mem_typeNames.mpr ⟨_, h1, by simp⟩)
  · exact mem_typeNames.mpr ⟨_, h2, by simp⟩

/-- Apart from such a collision type names do not repeat: with an empty include filter and a
discovery that succeeds, the type names of the document are pairwise distinct when the metadata
types of the listed folders that are not excluded are pairwise distinct and none of them is
`CustomObject` or a name of the static catalog. -/
theorem type_names_distinct (force : Force) (flags : Flags) (sobjects : List String)
    (folders : List (String × List String))
    (hI : flags.includeMetadataNames = []) (hs : force.ListSobjects = .ok sobjects)
    (hf : force.GetAllFolders = .ok folders)
    (hm : ∀ p ∈ folders, ∃ ms, force.GetMetadataInFolders (metadataTypeOf p.1) p.2 = .ok ms)
    (hd : ((folders.map (fun p => metadataTypeOf p.1)).filter
      (fun t => decide (t ∉ flags.excludeMetadataNames))).Nodup)
    (hx : ∀ p ∈ folders, metadataTypeOf p.1 ∉ flags.excludeMetadataNames →
      metadataTypeOf p.1 ≠ "CustomObject" ∧ metadataTypeOf p.1 ∉ metadataNames) :
    ∃ calls query, assemble force flags = (calls, .ok query) ∧ (typeNames query).Nodup := by
  refine ⟨_, _, assemble_all force flags sobjects folders hI hs hf hm, ?_⟩
  rw [typeNames_append, typeNames_append, typeNames_catalogPart,
    typeNames_folderPart force _ folders hm]
  refine List.nodup_append.mpr ⟨List.nodup_append.mpr ⟨typeNames_objectPart_nodup _ _,
    metadataNames_nodup.filter _, ?_⟩, hd, ?_⟩
  · intro n h1 h2
    have := typeNames_objectPart_subset h1
    subst this
    exact customObject_not_mem_metadataNames (List.mem_filter.mp h2).1
  · intro n h1 h2
    obtain ⟨h3, h4⟩ := List.mem_filter.mp h2
    obtain ⟨p, hp, rfl⟩ := List.mem_map.mp h3
    have hnx : metadataTypeOf p.1 ∉ flags.excludeMetadataNames := by simpa using h4
    obtain ⟨hco, hcat⟩ := hx p hp hnx
    rcases List.mem_append.mp h1 with h1 | h1
    · exact hco (typeNames_objectPart_subset h1)
    · exact hcat (List.mem_filter.mp h1).1

set_option maxRecDepth 100000 in
/-- A service whose only folder type is `Report` gets a document without repeated type
names. -/
theorem type_names_distinct_witness :
    ∃ calls query, assemble reportForce ⟨false, false, ["ApexClass"], []⟩ = (calls, .ok query) ∧
      (typeNames query).Nodup :=
  type_names_distinct reportForce ⟨false, false, ["ApexClass"], []⟩ ["Account"]
    [("Report", ["Sales"])] rfl rfl rfl (fun p _ => ⟨p.2, rfl⟩) (by decide)
    (by
      intro p hp _
      have : p = ("Report", ["Sales"]) := by simpa using hp
      subst this
      exact ⟨by decide, by decide⟩)

/-! ## Folder types -/

theorem metadataTypeOf_ne_email (t : String) : metadataTypeOf t ≠ "Email" := by
  unfold metadataTypeOf
  by_cases h : t = "Email"
  · simp only [h, if_true]; decide
  · simp only [h, if_false]; exact h

/-- C7: with an empty include filter and a discovery that succeeds, the member lister is called
once per entry of the folder listing, in order, under the metadata type of the entry, which is
`EmailTemplate` for the folder type `Email` and the folder type itself otherwise; it is never
called with `Email`.  The folder names of an `Email` entry are listed under `EmailTemplate`; its
element is named `EmailTemplate` and holds the members found, and it is kept exactly according to
whether `EmailTemplate` is excluded (excluding `Email` has no effect on it, and no element is
ever named `Email`).  Every other entry is listed and reported under its own folder type. -/
theorem email_folders_as_emailTemplate (force : Force) (flags : Flags) (sobjects : List String)
    (folders : List (String × List String))
    (hI : flags.includeMetadataNames = []) (hs : force.ListSobjects = .ok sobjects)
    (hf : force.GetAllFolders = .ok folders)
    (hm : ∀ p ∈ folders, ∃ ms, force.GetMetadataInFolders (metadataTypeOf p.1) p.2 = .ok ms) :
    ∃ calls query, assemble force flags = (calls, .ok query) ∧
      calls = [Call.ListSobjects, Call.GetAllFolders] ++ folders.map
        (fun p => Call.GetMetadataInFolders (if p.1 = "Email" then "EmailTemplate" else p.1) p.2) ∧
      (∀ t ns, Call.GetMetadataInFolders t ns ∈ calls → t ≠ "Email") ∧
      (∀ ns, ("Email", ns) ∈ folders → Call.GetMetadataInFolders "EmailTemplate" ns ∈ calls) ∧
      (∀ ns ms, ("Email", ns) ∈ folders →
        force.GetMetadataInFolders "EmailTemplate" ns = .ok ms →
        "EmailTemplate" ∉ flags.excludeMetadataNames →
        (⟨["EmailTemplate"], ms⟩ : ForceMetadataQueryElement) ∈ query) ∧
      ("EmailTemplate" ∈ flags.excludeMetadataNames → ∀ e ∈ query, "EmailTemplate" ∉ e.Name) ∧
      (∀ e ∈ query, "Email" ∉ e.Name) ∧
      (∀ t ns, (t, ns) ∈ folders → t ≠ "Email" → Call.GetMetadataInFolders t ns ∈ calls) ∧
      (∀ t ns ms, (t, ns) ∈ folders → t ≠ "Email" →
        force.GetMetadataInFolders t ns = .ok ms → t ∉ flags.excludeMetadataNames →
        (⟨[t], ms⟩ : ForceMetadataQueryElement) ∈ query) := by
  have hcall : ∀ p ∈ folders, folderCall p ∈
      [Call.ListSobjects, Call.GetAllFolders] ++ folders.map folderCall :=
    fun p hp => List.mem_append_right _ (List.mem_map_of_mem _ hp)
  have helem : ∀ p ∈ folders, ∀ ms,
      force.GetMetadataInFolders (metadataTypeOf p.1) p.2 = .ok ms →
      metadataTypeOf p.1 ∉ flags.excludeMetadataNames →
      (⟨[metadataTypeOf p.1], ms⟩ : ForceMetadataQueryElement) ∈
        objectPart flags sobjects ++ catalogPart flags.excludeMetadataNames metadataNames ++
          folderPart force flags.excludeMetadataNames folders :=
    fun p hp ms h1 h2 => List.mem_append_right _ (mem_folderPart.mpr ⟨p, hp, ms, h1, h2, rfl⟩)
  have hnames : ∀ e ∈ objectPart flags sobjects ++
      catalogPart flags.excludeMetadataNames metadataNames ++
        folderPart force flags.excludeMetadataNames folders, ∀ n ∈ e.Name,
      n ∉ flags.excludeMetadataNames ∨ n = "CustomObject" := by
    intro e he n hn
    rcases List.mem_append.mp he with he | hc
    · rcases List.mem_append.mp he with ho | hc
      · obtain ⟨_, rfl, _⟩ := mem_objectPart ho
        right; simpa [customObjectElement] using hn
      · obtain ⟨m, _, hm2, rfl⟩ := mem_catalogPart.mp hc
        have : n = m := by simpa [wildcard] using hn
        left; exact this ▸ hm2
    · obtain ⟨p, _, ms, _, hm2, rfl⟩ := mem_folderPart.mp hc
      have : n = metadataTypeOf p.1 := by simpa using hn
      left; exact this ▸ hm2
  have hemail : metadataTypeOf "Email" = "EmailTemplate" := rfl
  have hother : ∀ t, t ≠ "Email" → metadataTypeOf t = t := by
    intro t ht; simp [metadataTypeOf, ht]
  refine ⟨_, _, assemble_all force flags sobjects folders hI hs hf hm, rfl, ?_, ?_, ?_, ?_, ?_,
    ?_, ?_⟩
  · intro t ns hc
    rcases List.mem_append.mp hc with hc | hc
    · simp at hc
    · obtain ⟨p, _, hp⟩ := List.mem_map.mp hc
      simp only [folderCall, Call.GetMetadataInFolders.injEq] at hp
      rw [← hp.1]
      exact metadataTypeOf_ne_email p.1
  · intro ns hmem
    exact hcall ("Email", ns) hmem
  · intro ns ms hmem hms hx
    exact helem ("Email", ns) hmem ms hms hx
  · intro hx e he hn
    rcases hnames e he _ hn with h | h
    · exact h hx
    · exact absurd h (by decide)
  · intro e he hn
    rcases List.mem_append.mp he with he | hc
    · rcases List.mem_append.mp he with ho | hc
      · obtain ⟨_, rfl, _⟩ := mem_objectPart ho
        simp [customObjectElement] at hn
      · obtain ⟨m, hm1, _, rfl⟩ := mem_catalogPart.mp hc
        have : "Email" = m := by simpa [wildcard] using hn
        exact email_not_mem_metadataNames (this ▸ hm1)
    · obtain ⟨p, _, ms, _, _, rfl⟩ := mem_folderPart.mp hc
      have : "Email" = metadataTypeOf p.1 := by simpa using hn
      exact metadataTypeOf_ne_email p.1 this.symm
  · intro t ns hmem ht
    have := hcall (t, ns) hmem
    simpa [folderCall, hother t ht] using this
  · intro t ns ms hmem ht hms hx
    have := helem (t, ns) hmem ms (by simpa [hother t ht] using hms)
      (by simpa [hother t ht] using hx)
    simpa [hother t ht] using this

/-- C7 at the sample service, whose folder listing holds `Email` and `Report`. -/
theorem email_folders_as_emailTemplate_witness :
    ∃ calls query, assemble sampleForce ⟨false, false, ["Email"], []⟩ = (calls, .ok query) ∧
      calls = [Call.ListSobjects, Call.GetAllFolders,
        Call.GetMetadataInFolders "EmailTemplate" ["Inbox"],
        Call.GetMetadataInFolders "Report" ["Sales"]] ∧
      (⟨["EmailTemplate"], ["Inbox"]⟩ : ForceMetadataQueryElement) ∈ query ∧
      (⟨["Report"], ["Sales"]⟩ : ForceMetadataQueryElement) ∈ query := by
  obtain ⟨calls, query, h, hcalls, _, _, hemail, _, _, _, hother⟩ :=
    email_folders_as_emailTemplate sampleForce ⟨false, false, ["Email"], []⟩
      ["Account", "Foo__bar__baz"] [("Email", ["Inbox"]), ("Report", ["Sales"])] rfl rfl rfl
      (fun p _ => ⟨p.2, rfl⟩)
  exact ⟨calls, query, h, hcalls, hemail ["Inbox"] ["Inbox"] (by decide) rfl (by decide),
    hother "Report" ["Sales"] ["Sales"] (by decide) (by decide) rfl (by decide)⟩

/-! ## Discovery errors -/

/-- The remote calls of the assembly start with the object listing and never include a
retrieval; the folder loop only adds member listings. -/
theorem foldersLoop_calls (force : Force) (exclude : List String) :
    ∀ (folders : List (String × List String)) (calls : List Call) (query : ForceMetadataQuery),
      ∃ extra, (foldersLoop force exclude folders calls query).1 = calls ++ extra ∧
        ∀ c ∈ extra, ∃ p ∈ folders, c = folderCall p
  | [], calls, query => ⟨[], by simp [foldersLoop]⟩
  | (t, ns) :: rest, calls, query => by
    have hstep : ∀ query2, ∃ extra,
        (foldersLoop force exclude rest
          (calls ++ [Call.GetMetadataInFolders (metadataTypeOf t) ns]) query2).1 =
          calls ++ extra ∧ ∀ c ∈ extra, ∃ p ∈ (t, ns) :: rest, c = folderCall p := by
      intro query2
      obtain ⟨extra, h1, h2⟩ := foldersLoop_calls force exclude rest
        (calls ++ [Call.GetMetadataInFolders (metadataTypeOf t) ns]) query2
      refine ⟨folderCall (t, ns) :: extra, by rw [h1]; simp [folderCall], ?_⟩
      intro c hc
      rcases List.mem_cons.mp hc with rfl | hc
      · exact ⟨(t, ns), List.mem_cons_self _ _, rfl⟩
      · obtain ⟨p, hp, rfl⟩ := h2 c hc
        exact ⟨p, List.mem_cons_of_mem _ hp, rfl⟩
    unfold foldersLoop
    cases hms : force.GetMetadataInFolders (metadataTypeOf t) ns with
    | error e =>
      simp only [hms]
      exact ⟨[folderCall (t, ns)], by simp [folderCall], by simp⟩
    | ok ms =>
      simp only [hms]
      split
      · exact hstep _
      · exact hstep _

theorem assemble_calls (force : Force) (flags : Flags) :
    (assemble force flags).1.head? = some Call.ListSobjects ∧
      ∀ q, Call.Retrieve q ∉ (assemble force flags).1 := by
  unfold assemble
  cases force.ListSobjects with
  | error e => simp
  | ok sobjects =>
    simp only
    split
    · cases force.GetAllFolders with
      | error e => simp
      | ok folders =>
        simp only
        obtain ⟨extra, h1, h2⟩ := foldersLoop_calls force
          (sortStrings flags.excludeMetadataNames) folders
          [Call.ListSobjects, Call.GetAllFolders]
          (namesLoop (sortStrings flags.excludeMetadataNames)
            (if (sortStrings flags.includeMetadataNames).length > 0 then
              sortStrings (sortStrings flags.includeMetadataNames) else metadataNames)
            (customObjectStep flags.includeManagedPackages
              (sortStrings flags.excludeMetadataNames)
              (sortStrings flags.includeMetadataNames) sobjects []))
        rw [h1]
        refine ⟨rfl, ?_⟩
        intro q hq
        rcases List.mem_append.mp hq with hq | hq
        · simp at hq
        · obtain ⟨p, _, hp⟩ := h2 _ hq
          simp [folderCall] at hp
    · simp

/-- A failed discovery leaves the message of the object lister as it is and wraps those of the
folder lister and of the member lister. -/
theorem assemble_error_inv (force : Force) (flags : Flags) (calls : List Call) (msg : String)
    (h : assemble force flags = (calls, .error msg)) :
    force.ListSobjects = .error msg ∨
      (∃ e, force.GetAllFolders = .error e ∧ msg = "Could not get folders: " ++ e) ∨
      (∃ t ns e, force.GetMetadataInFolders t ns = .error e ∧
        msg = "Could not get metadata in folders: " ++ e) := by
  unfold assemble at h
  cases hs : force.ListSobjects with
  | error e =>
    simp only [hs, Prod.mk.injEq, Except.error.injEq] at h
    left; rw [h.2]
  | ok sobjects =>
    simp only [hs] at h
    split at h
    · cases hf : force.GetAllFolders with
      | error e =>
        simp only [hf, Prod.mk.injEq, Except.error.injEq] at h
        right; left; exact ⟨e, rfl, h.2.symm⟩
      | ok folders =>
        simp only [hf] at h
        obtain ⟨p, _, e, he, hmsg⟩ := foldersLoop_error_inv force _ folders _ _ _ _ h
        right; right; exact ⟨_, _, e, he, hmsg⟩
    · simp at h

/-- A run whose discovery fails is fatal with the message of the assembly, retrieves nothing and
leaves the file system as it was. -/
theorem runExport_discovery_error (resolver : Resolver) (force : Force) (flags : Flags)
    (args : List String) (fs : FS) (calls : List Call) (msg : String)
    (h : assemble force flags = (calls, .error msg)) :
    (∃ m, (runExport resolver force flags args fs).outcome = Outcome.fatal m) ∧
      (runExport resolver force flags args fs).fs = fs ∧
      ∀ q, Call.Retrieve q ∉ (runExport resolver force flags args fs).calls := by
  have hc := (assemble_calls force flags).2
  rw [h] at hc
  unfold runExport
  simp only [h]
  split
  · exact ⟨⟨_, rfl⟩, rfl, by simp⟩
  · exact ⟨⟨_, rfl⟩, rfl, hc⟩

/-- C8, on the code: each failing listing ends the run with a fatal error and the file system
untouched, but only the folder lister and the member lister have their message wrapped; the
message of the object lister is reported as it is. -/
theorem discovery_error_messages :
    runExport sampleResolver failingObjects noFlags [] [] =
        ⟨[Call.ListSobjects], [], [], Outcome.fatal "boom"⟩ ∧
      runExport sampleResolver failingFolders noFlags [] [] =
        ⟨[Call.ListSobjects, Call.GetAllFolders], [], [],
          Outcome.fatal "Could not get folders: boom"⟩ ∧
      runExport sampleResolver failingMembers noFlags [] [] =
        ⟨[Call.ListSobjects, Call.GetAllFolders, Call.GetMetadataInFolders "Report" ["Sales"]],
          [], [], Outcome.fatal "Could not get metadata in folders: boom"⟩ := by
  refine ⟨rfl, rfl, rfl⟩

/-! ## Configuration errors -/

/-- C9, on the code: with no path given and no stored source directory, the object lister, the
folder lister and the member lister have all been called by the time the configuration error
ends the run. -/
theorem config_error_after_discovery :
    (runExport failingResolver sampleForce noFlags [] []).outcome =
        Outcome.fatal "no source directory" ∧
      (runExport failingResolver sampleForce noFlags [] []).calls =
        [Call.ListSobjects, Call.GetAllFolders,
          Call.GetMetadataInFolders "EmailTemplate" ["Inbox"],
          Call.GetMetadataInFolders "Report" ["Sales"]] := by
  refine ⟨rfl, rfl⟩

/-- What the code does on a configuration error: when the positional path cannot be made
absolute the run is fatal with that error before any remote call.  When no path is given and
the stored configuration lookup fails, the run is fatal, the retriever is never called and
nothing is written; the remote calls of the run are those of the assembly, the object listing
first, and when the assembly succeeds the configuration error is the one reported. -/
theorem config_error_before_retrieve (resolver : Resolver) (force : Force) (flags : Flags)
    (args : List String) (fs : FS) (err : String)
    (h : (∃ p, args = [p] ∧ resolver.Abs p = .error err) ∨
      (args = [] ∧ resolver.GetSourceDir = .error err)) :
    (∀ q, Call.Retrieve q ∉ (runExport resolver force flags args fs).calls) ∧
      (runExport resolver force flags args fs).fs = fs ∧
      (∃ msg, (runExport resolver force flags args fs).outcome = Outcome.fatal msg) ∧
      (∀ p, args = [p] → (runExport resolver force flags args fs).calls = [] ∧
        (runExport resolver force flags args fs).outcome = Outcome.fatal err) ∧
      (args = [] →
        (runExport resolver force flags args fs).calls = (assemble force flags).1 ∧
        (runExport resolver force flags args fs).calls.head? = some Call.ListSobjects ∧
        ∀ calls query, assemble force flags = (calls, .ok query) →
          (runExport resolver force flags args fs).outcome = Outcome.fatal err) := by
  rcases h with ⟨p, rfl, hp⟩ | ⟨rfl, hg⟩
  · have hrun : runExport resolver force flags [p] fs = ⟨[], [], fs, Outcome.fatal err⟩ := by
      simp [runExport, hp]
    rw [hrun]
    exact ⟨by simp, rfl, ⟨_, rfl⟩, fun _ _ => ⟨rfl, rfl⟩, by simp⟩
  · obtain ⟨hhead, hno⟩ := assemble_calls force flags
    rcases hasm : assemble force flags with ⟨calls, res⟩
    rw [hasm] at hhead hno
    cases res with
    | error msg =>
      have hrun : runExport resolver force flags [] fs = ⟨calls, [], fs, Outcome.fatal msg⟩ := by
        simp [runExport, hasm]
      rw [hrun]
      refine ⟨hno, rfl, ⟨_, rfl⟩, by simp, fun _ => ⟨rfl, hhead, ?_⟩⟩
      intro calls2 query heq
      simp at heq
    | ok query =>
      have hrun : runExport resolver force flags [] fs = ⟨calls, [], fs, Outcome.fatal err⟩ := by
        simp [runExport, hasm, hg]
      rw [hrun]
      exact ⟨hno, rfl, ⟨_, rfl⟩, by simp, fun _ => ⟨rfl, hhead, fun _ _ _ => rfl⟩⟩

/-- A path that cannot be made absolute: no remote call is made. -/
theorem config_error_before_retrieve_witness :
    failingResolver.Abs "out" = .error "no working directory" ∧
      (runExport failingResolver sampleForce noFlags ["out"] []).calls = [] ∧
      (runExport failingResolver sampleForce noFlags ["out"] []).outcome =
        Outcome.fatal "no working directory" :=
  ⟨rfl, (config_error_before_retrieve failingResolver sampleForce noFlags ["out"] []
    "no working directory" (Or.inl ⟨"out", rfl, rfl⟩)).2.2.2.1 "out" rfl⟩

/-! ## The file system -/

theorem find_put_same (p : Path) (v : Node) : ∀ fs : FS, find p (put p v fs) = some v
  | [] => by simp [put, find]
  | (q, w) :: rest => by
    by_cases h : q = p
    · simp [put, find, h]
    · simp [put, find, h, find_put_same p v rest]

theorem find_put_other {p q : Path} (v : Node) (h : q ≠ p) :
    ∀ fs : FS, find q (put p v fs) = find q fs
  | [] => by simp [put, find, Ne.symm h]
  | (r, w) :: rest => by
    by_cases hr : r = p
    · subst hr
      simp [put, find, Ne.symm h]
    · by_cases hq : r = q
      · subst hq
        simp [put, find, hr]
      · simp [put, find, hr, hq, find_put_other v h rest]

theorem put_of_find {p : Path} {v : Node} : ∀ {fs : FS}, find p fs = some v → put p v fs = fs
  | [], h => by simp [find] at h
  | (q, w) :: rest, h => by
    by_cases hq : q = p
    · simp only [find, hq, if_true, Option.some.injEq] at h
      simp [put, hq, h]
    · simp only [find, hq, if_false] at h
      simp [put, hq, put_of_find h]

theorem stat_put_same {p : Path} (v : Node) (fs : FS) (hp : p ≠ []) :
    stat (put p v fs) p = some v := by
  simp [stat, hp, find_put_same]

theorem stat_put_other {p q : Path} (v : Node) (fs : FS) (h : q ≠ p) :
    stat (put p v fs) q = stat fs q := by
  simp [stat, find_put_other v h]

theorem append_singleton_ne_nil (pre : Path) (c : String) : pre ++ [c] ≠ [] := by simp

/-- Creating directories changes no node that exists. -/
theorem mkdirFrom_preserves : ∀ (rest : List String) (pre : Path) (fs fs1 : FS),
    mkdirFrom pre rest fs = .ok fs1 → ∀ q v, stat fs q = some v → stat fs1 q = some v
  | [], pre, fs, fs1, h, q, v, hq => by
    simp only [mkdirFrom, Except.ok.injEq] at h
    rw [← h]; exact hq
  | c :: rest, pre, fs, fs1, h, q, v, hq => by
    unfold mkdirFrom at h
    cases hst : stat fs (pre ++ [c]) with
    | none =>
      simp only [hst] at h
      refine mkdirFrom_preserves rest _ _ fs1 h q v ?_
      have hne : q ≠ pre ++ [c] := by
        intro heq; rw [heq, hst] at hq; simp at hq
      rw [stat_put_other _ _ hne]; exact hq
    | some node =>
      cases node with
      | dir =>
        simp only [hst] at h
        exact mkdirFrom_preserves rest _ fs fs1 h q v hq
      | file d => simp [hst] at h

/-- After the directories have been created they all exist. -/
theorem mkdirFrom_allDirs : ∀ (rest : List String) (pre : Path) (fs fs1 : FS),
    mkdirFrom pre rest fs = .ok fs1 → allDirs fs1 pre rest
  | [], _, _, _, _ => trivial
  | c :: rest, pre, fs, fs1, h => by
    have h2 := h
    unfold mkdirFrom at h2
    cases hst : stat fs (pre ++ [c]) with
    | none =>
      simp only [hst] at h2
      refine ⟨?_, mkdirFrom_allDirs rest _ _ fs1 h2⟩
      exact mkdirFrom_preserves rest _ _ fs1 h2 _ _
        (stat_put_same _ _ (append_singleton_ne_nil pre c))
    | some node =>
      cases node with
      | dir =>
        simp only [hst] at h2
        exact ⟨mkdirFrom_preserves rest _ fs fs1 h2 _ _ hst, mkdirFrom_allDirs rest _ fs fs1 h2⟩
      | file d => simp [hst] at h2

/-- Directories that exist are left alone. -/
theorem mkdirFrom_of_allDirs : ∀ (rest : List String) (pre : Path) (fs : FS),
    allDirs fs pre rest → mkdirFrom pre rest fs = .ok fs
  | [], _, _, _ => rfl
  | c :: rest, pre, fs, h => by
    unfold mkdirFrom
    simp only [h.1]
    exact mkdirFrom_of_allDirs rest _ fs h.2

theorem allDirs_mono {fs fs1 : FS}
    (hdir : ∀ q, stat fs q = some Node.dir → stat fs1 q = some Node.dir) :
    ∀ (rest : List String) (pre : Path), allDirs fs pre rest → allDirs fs1 pre rest
  | [], _, _ => trivial
  | _ :: rest, _, h => ⟨hdir _ h.1, allDirs_mono hdir rest _ h.2⟩

theorem allDirs_take {fs : FS} : ∀ (rest : List String) (pre : Path), allDirs fs pre rest →
    stat fs pre = some Node.dir → ∀ k, stat fs (pre ++ rest.take k) = some Node.dir
  | [], pre, _, hpre, k => by simpa using hpre
  | c :: rest, pre, h, hpre, k => by
    cases k with
    | zero => simpa using hpre
    | succ k =>
      have := allDirs_take rest (pre ++ [c]) h.2 h.1 k
      simpa using this

theorem allDirs_last {fs : FS} : ∀ (rest : List String) (pre : Path), allDirs fs pre rest →
    stat fs pre = some Node.dir → stat fs (pre ++ rest) = some Node.dir := by
  intro rest pre h hpre
  have := allDirs_take rest pre h hpre rest.length
  simpa using this

theorem WriteFile_ok_iff (file : Path) (data : List Nat) (fs fs2 : FS) :
    WriteFile file data fs = .ok fs2 ↔
      stat fs file ≠ some Node.dir ∧ stat fs (Dir file) = some Node.dir ∧
        fs2 = put file (Node.file data) fs := by
  unfold WriteFile
  cases hst : stat fs file with
  | none =>
    cases hd : stat fs (Dir file) with
    | none => simp
    | some node => cases node <;> simp [eq_comm]
  | some node =>
    cases node with
    | dir => simp
    | file d =>
      cases hd : stat fs (Dir file) with
      | none => simp
      | some node => cases node <;> simp [eq_comm]

theorem materialize_cons_eq (root name : String) (data : List Nat)
    (files : List (String × List Nat)) (fs : FS) :
    materialize root ((name, data) :: files) fs =
      match MkdirAll (Dir (Join root name)) fs with
      | .error err => (fs, some err)
      | .ok fs1 =>
        match WriteFile (Join root name) data fs1 with
        | .error err => (fs1, some err)
        | .ok fs2 => materialize root files fs2 := rfl

/-- One round of the materializer loop: create the directory, write the file. -/
theorem materialize_cons (root name : String) (data : List Nat)
    (files : List (String × List Nat)) (fs fs3 : FS) :
    materialize root ((name, data) :: files) fs = (fs3, none) ↔
      ∃ fs1, MkdirAll (Dir (Join root name)) fs = .ok fs1 ∧
        stat fs1 (Join root name) ≠ some Node.dir ∧
        stat fs1 (Dir (Join root name)) = some Node.dir ∧
        materialize root files (put (Join root name) (Node.file data) fs1) = (fs3, none) := by
  rw [materialize_cons_eq]
  constructor
  · intro h
    cases hmk : MkdirAll (Dir (Join root name)) fs with
    | error e => simp [hmk] at h
    | ok fs1 =>
      simp only [hmk] at h
      cases hw : WriteFile (Join root name) data fs1 with
      | error e => simp [hw] at h
      | ok fs2 =>
        simp only [hw] at h
        obtain ⟨h1, h2, h3⟩ := (WriteFile_ok_iff _ _ _ _).mp hw
        subst h3
        exact ⟨fs1, rfl, h1, h2, h⟩
  · rintro ⟨fs1, hmk, h1, h2, hrest⟩
    simp only [hmk, (WriteFile_ok_iff _ _ _ _).mpr ⟨h1, h2, rfl⟩]
    exact hrest

theorem stat_nil (fs : FS) : stat fs [] = some Node.dir := by simp [stat]

/-- A successful materialization keeps every directory, and every file whose path is not
written. -/
theorem materialize_preserves (root : String) : ∀ (files : List (String × List Nat))
    (fs fs3 : FS), materialize root files fs = (fs3, none) →
    (∀ q, stat fs q = some Node.dir → stat fs3 q = some Node.dir) ∧
      (∀ q d, stat fs q = some (Node.file d) → q ∉ files.map (fun e => Join root e.1) →
        stat fs3 q = some (Node.file d))
  | [], fs, fs3, h => by
    simp only [materialize, Prod.mk.injEq, and_true] at h
    subst h
    exact ⟨fun _ hq => hq, fun _ _ hq _ => hq⟩
  | (name, data) :: files, fs, fs3, h => by
    obtain ⟨fs1, hmk, hnd, _, hrest⟩ := (materialize_cons root name data files fs fs3).mp h
    obtain ⟨ih1, ih2⟩ := materialize_preserves root files _ fs3 hrest
    have hpres := mkdirFrom_preserves _ _ fs fs1 hmk
    constructor
    · intro q hq
      apply ih1
      have h1 := hpres q _ hq
      have hne : q ≠ Join root name := by
        intro heq; rw [heq] at h1; exact hnd h1
      rw [stat_put_other _ _ hne]; exact h1
    · intro q d hq hnot
      simp only [List.map_cons, List.mem_cons, not_or] at hnot
      apply ih2 q d _ hnot.2
      rw [stat_put_other _ _ hnot.1]
      exact hpres q _ hq

/-- After a successful materialization with pairwise distinct target paths every entry is in
place: its file holds its content and the directories above it exist. -/
theorem materialize_settled (root : String) : ∀ (files : List (String × List Nat))
    (fs fs3 : FS), (files.map (fun e => Join root e.1)).Nodup →
    materialize root files fs = (fs3, none) →
    ∀ name data, (name, data) ∈ files →
      stat fs3 (Join root name) = some (Node.file data) ∧
        allDirs fs3 [] (Dir (Join root name))
  | [], _, _, _, _ => by simp
  | (name, data) :: files, fs, fs3, hd, h => by
    obtain ⟨fs1, hmk, hnd, hdir, hrest⟩ := (materialize_cons root name data files fs fs3).mp h
    obtain ⟨hnot, hd2⟩ := List.nodup_cons.mp hd
    obtain ⟨p1, p2⟩ := materialize_preserves root files _ fs3 hrest
    have ih := materialize_settled root files _ fs3 hd2 hrest
    have hne : Join root name ≠ [] := by
      intro heq; rw [heq] at hnd; exact hnd (stat_nil fs1)
    intro n d hmem
    rcases List.mem_cons.mp hmem with heq | hmem
    · simp only [Prod.mk.injEq] at heq
      obtain ⟨rfl, rfl⟩ := heq
      refine ⟨p2 _ _ (stat_put_same _ _ hne) hnot, ?_⟩
      have h1 : allDirs fs1 [] (Dir (Join root n)) := mkdirFrom_allDirs _ _ fs fs1 hmk
      refine allDirs_mono (fun q hq => p1 q ?_) _ _ h1
      have hq2 : q ≠ Join root n := by
        intro heq; rw [heq] at hq; exact hnd hq
      rw [stat_put_other _ _ hq2]; exact hq
    · exact ih n d hmem

/-- On a file system where every entry is in place the materializer changes nothing. -/
theorem materialize_noop (root : String) (fs : FS) : ∀ files : List (String × List Nat),
    (∀ name data, (name, data) ∈ files →
      stat fs (Join root name) = some (Node.file data) ∧
        allDirs fs [] (Dir (Join root name))) →
    materialize root files fs = (fs, none)
  | [], _ => rfl
  | (name, data) :: files, h => by
    obtain ⟨hfile, hdirs⟩ := h name data (List.mem_cons_self _ _)
    have hmk : MkdirAll (Dir (Join root name)) fs = .ok fs := mkdirFrom_of_allDirs _ _ fs hdirs
    have hdir : stat fs (Dir (Join root name)) = some Node.dir := by
      have := allDirs_last _ [] hdirs (stat_nil fs)
      simpa using this
    have hne : Join root name ≠ [] := by
      intro heq; rw [heq, stat_nil] at hfile; simp at hfile
    have hfind : find (Join root name) fs = some (Node.file data) := by
      simpa [stat, hne] using hfile
    refine (materialize_cons root name data files fs fs).mpr ⟨fs, hmk, ?_, hdir, ?_⟩
    · rw [hfile]; simp
    · rw [put_of_find hfind]
      exact materialize_noop root fs files (fun n d hm => h n d (List.mem_cons_of_mem _ hm))

/-! ## Materialization -/

/-- C10, as stated, fails: the relative paths `a` and `./a` name the same file, the run succeeds,
and afterwards that file does not hold the content returned for `a`. -/
theorem same_file_written_twice :
    materialize "/r" [("a", [1]), ("./a", [2])] [] =
        ([(["r"], Node.dir), (["r", "a"], Node.file [2])], none) ∧
      Join "/r" "a" = ["r", "a"] ∧
      stat [(["r"], Node.dir), (["r", "a"], Node.file [2])] (Join "/r" "a") ≠
        some (Node.file [1]) := by
  refine ⟨by decide, by decide, by decide⟩

/-- C10, amended: over an explicit file system, for every root and every retrieval result whose
relative paths resolve to pairwise distinct files under the root and whose materialization
succeeds, afterwards every file `root/relativePath` holds the returned content, whatever was
there before, every directory above it exists, and running the materializer again with the same
result, visited in any order, succeeds and leaves the file system as it is. -/
theorem materialize_idempotent (root : String) (files : List (String × List Nat)) (fs fs1 : FS)
    (hd : (files.map (fun e => Join root e.1)).Nodup)
    (h : materialize root files fs = (fs1, none)) :
    (∀ name data, (name, data) ∈ files →
      stat fs1 (Join root name) = some (Node.file data) ∧
        ∀ k, stat fs1 ((Dir (Join root name)).take k) = some Node.dir) ∧
      (∀ files2, files2.Perm files → materialize root files2 fs1 = (fs1, none)) := by
  have hs := materialize_settled root files fs fs1 hd h
  constructor
  · intro name data hmem
    obtain ⟨h1, h2⟩ := hs name data hmem
    refine ⟨h1, fun k => ?_⟩
    have := allDirs_take _ [] h2 (stat_nil fs1) k
    simpa using this
  · intro files2 hperm
    exact materialize_noop root fs1 files2
      (fun n d hm => hs n d (hperm.mem_iff.mp hm))

/-- The amended C10 at two files written over an older one: the second run, in the other order,
changes nothing. -/
theorem materialize_idempotent_witness :
    materialize "/r" [("x/a", [1]), ("b", [2])] [(["r"], Node.dir), (["r", "b"], Node.file [9])] =
        ([(["r"], Node.dir), (["r", "b"], Node.file [2]), (["r", "x"], Node.dir),
          (["r", "x", "a"], Node.file [1])], none) ∧
      materialize "/r" [("b", [2]), ("x/a", [1])]
          [(["r"], Node.dir), (["r", "b"], Node.file [2]), (["r", "x"], Node.dir),
            (["r", "x", "a"], Node.file [1])] =
        ([(["r"], Node.dir), (["r", "b"], Node.file [2]), (["r", "x"], Node.dir),
          (["r", "x", "a"], Node.file [1])], none) :=
  ⟨by decide, (materialize_idempotent "/r" [("x/a", [1]), ("b", [2])]
    [(["r"], Node.dir), (["r", "b"], Node.file [9])] _ (by decide) (by decide)).2
    [("b", [2]), ("x/a", [1])] (List.Perm.swap _ _ _)⟩

/-! ## The whole run -/

/-- With a positional path that resolves, a discovery that succeeds and a retrieval that
succeeds, the run submits the assembled document and ends in the file system the materializer
reaches. -/
theorem runExport_of_arg (resolver : Resolver) (force : Force) (flags : Flags) (p root : String)
    (fs : FS) (calls : List Call) (query : ForceMetadataQuery)
    (files : List (String × List Nat)) (problems : List String)
    (ha : resolver.Abs p = .ok root) (hr : root ≠ "")
    (hq : assemble force flags = (calls, .ok query))
    (hret : force.Retrieve query = .ok (files, problems)) :
    runExport resolver force flags [p] fs =
      ⟨calls ++ [Call.Retrieve query], if flags.showWarnings then problems else [],
        (materialize root files fs).1,
        match (materialize root files fs).2 with
        | some err => Outcome.fatal err
        | none => Outcome.exported root⟩ := by
  unfold runExport
  simp only [List.length_singleton, if_true, List.getD_cons_zero, ha, hq, hr, if_false, hret]
  rcases hmat : materialize root files fs with ⟨fs1, res⟩
  cases res <;> rfl

end Export
